import Mathlib

/-!
Verification development for the claude-plus task-runner.

The Python sources under src/ are shallowly embedded below.  Python strings
are modelled as `List Char` (written `Str`), JSON documents as the inductive
`Json`, and `json.loads` as a fuel-indexed recursive descent reader
(`pyJsonLoads`).  All definitions are executable so concrete runs of the
embedded code can be checked by `decide` / `rfl`.
-/

namespace ClaudePlus

/-- Str is the model of a Python `str`: a list of characters.  Byte offsets in
files are modelled as character offsets (order-isomorphic for our purposes). -/
abbrev Str := List Char

/-- Whitespace recognised by Python `str.strip()` (ASCII subset). -/
def pyIsSpace (c : Char) : Bool :=
  c == ' ' || c == '\t' || c == '\n' || c == '\r' || c == '\x0b' || c == '\x0c'

/-- Model of Python `str.strip()`: drop whitespace from both ends. -/
def pyStrip (s : Str) : Str :=
  ((s.dropWhile pyIsSpace).reverse.dropWhile pyIsSpace).reverse

/-- Model of Python `str.split(sep)` for a one-character separator. -/
def splitOnChar (sep : Char) : Str → List Str
  | [] => [[]]
  | c :: rest =>
    if c = sep then [] :: splitOnChar sep rest
    else
      match splitOnChar sep rest with
      | [] => [[c]]
      | l :: ls => (c :: l) :: ls

/-- Split a string on newline characters, the model of iterating a file by
lines followed by `strip()` (trailing separators give empty entries, which all
call sites skip). -/
def splitNl : Str → List Str := splitOnChar '\n'

/-- Boolean test that `p` begins the list `s`. -/
def beginsWith : Str → Str → Bool
  | [], _ => true
  | _ :: _, [] => false
  | a :: as, b :: bs => a == b && beginsWith as bs

/-- Model of Python `needle in hay` for strings: substring containment. -/
def containsSub (needle : Str) : Str → Bool
  | [] => needle.isEmpty
  | c :: rest => beginsWith needle (c :: rest) || containsSub needle rest

/-- Boolean test that `p` ends the list `s` (Python `str.endswith`). -/
def pyEndsWith (s p : Str) : Bool := beginsWith p.reverse s.reverse

/-- Model of Python `str.find(c)` for a single character: index of the first
occurrence, `none` for the sentinel `-1`. -/
def pyFind (c : Char) : Str → Option Nat
  | [] => none
  | d :: rest =>
    if d = c then some 0
    else (pyFind c rest).map (· + 1)

/-- Model of Python `str.rfind(c)`: index of the last occurrence. -/
def pyRFind (c : Char) (s : Str) : Option Nat :=
  (pyFind c s.reverse).map (fun i => s.length - 1 - i)

/-- Model of the Python slice `s[a:b]` for `0 ≤ a, b` (empty when `b ≤ a`). -/
def pySlice (s : Str) (a b : Nat) : Str := (s.drop a).take (b - a)

/-- Model of Python `str.lower()` (ASCII letters). -/
def pyLower (s : Str) : Str := s.map Char.toLower

/-- Digit-string value. -/
def digitsVal (s : Str) : Nat := s.foldl (fun n c => 10 * n + (c.toNat - '0'.toNat)) 0

/-- ASCII decimal digit, by code point. -/
def isAsciiDigit (c : Char) : Bool := decide (48 ≤ c.toNat) && decide (c.toNat ≤ 57)

/-- Model of Python `int(x)` on strings: strip whitespace, optional sign, then
decimal digits (numeric-underscore and non-ASCII digit forms are outside the
modelled fragment and rejected). -/
def pyInt? (s : Str) : Option Int :=
  match pyStrip s with
  | [] => none
  | c :: ds =>
    if c = '-' then
      if ds ≠ [] ∧ ds.all isAsciiDigit then some (-(digitsVal ds : Int)) else none
    else if c = '+' then
      if ds ≠ [] ∧ ds.all isAsciiDigit then some (digitsVal ds : Int) else none
    else if (c :: ds).all isAsciiDigit then some (digitsVal (c :: ds) : Int)
    else none

/-- JSON documents, the values produced by `json.loads`.  Numbers are carried
exactly as rationals. -/
inductive Json where
  | null
  | bool (b : Bool)
  | num (q : ℚ)
  | str (s : Str)
  | arr (elements : List Json)
  | obj (members : List (Str × Json))

/-- Dictionary lookup on parsed JSON members; a repeated key keeps the last
binding, as `json.loads` does. -/
def jsonLookup (kvs : List (Str × Json)) (k : Str) : Option Json :=
  match kvs with
  | [] => none
  | (k', v) :: rest =>
    match jsonLookup rest k with
    | some w => some w
    | none => if k' = k then some v else none

/-- Model of `d.get(k, default)` on a JSON object body. -/
def jsonGetD (kvs : List (Str × Json)) (k : Str) (default : Json) : Json :=
  (jsonLookup kvs k).getD default

/-- Python truthiness of a decoded JSON value. -/
def pyTruthy : Json → Bool
  | .null => false
  | .bool b => b
  | .num q => q ≠ 0
  | .str s => !s.isEmpty
  | .arr xs => !xs.isEmpty
  | .obj kvs => !kvs.isEmpty

/-- JSON whitespace accepted between tokens. -/
def skipWs (s : Str) : Str :=
  s.dropWhile (fun c => c == ' ' || c == '\t' || c == '\n' || c == '\r')

/-- Read a JSON string body after the opening quote.  Raw control characters
are rejected (strict mode); `\uXXXX` escapes are outside the modelled
fragment. -/
def readJsonString : Str → Option (Str × Str)
  | [] => none
  | '"' :: rest => some ([], rest)
  | '\\' :: e :: rest =>
    let esc : Option Char :=
      if e = '"' then some '"'
      else if e = '\\' then some '\\'
      else if e = '/' then some '/'
      else if e = 'n' then some '\n'
      else if e = 't' then some '\t'
      else if e = 'r' then some '\r'
      else if e = 'b' then some '\x08'
      else if e = 'f' then some '\x0c'
      else none
    match esc with
    | none => none
    | some c =>
      match readJsonString rest with
      | some (s, r) => some (c :: s, r)
      | none => none
  | c :: rest =>
    if c.toNat < 32 then none
    else
      match readJsonString rest with
      | some (s, r) => some (c :: s, r)
      | none => none

/-- Read the integer digits of a JSON number: a single `0` or a nonzero lead
digit followed by digits. -/
def readJsonIntDigits (s : Str) : Option (Str × Str) :=
  match s with
  | '0' :: rest => some (['0'], rest)
  | c :: rest =>
    if c.isDigit then
      let more := rest.takeWhile Char.isDigit
      some (c :: more, rest.dropWhile Char.isDigit)
    else none
  | [] => none

/-- Read a JSON number token and return its exact rational value. -/
def readJsonNumber (s : Str) : Option (Json × Str) := do
  let (neg, s1) :=
    match s with
    | '-' :: rest => (true, rest)
    | _ => (false, s)
  let (intDs, s2) ← readJsonIntDigits s1
  let (fracDs, s3) :=
    match s2 with
    | '.' :: rest =>
      let ds := rest.takeWhile Char.isDigit
      (ds, rest.dropWhile Char.isDigit)
    | _ => ([], s2)
  if s2 ≠ [] ∧ s2.headD ' ' = '.' ∧ fracDs = [] then none else
  let (expNeg, expDs, s4) :=
    match s3 with
    | 'e' :: rest | 'E' :: rest =>
      match rest with
      | '-' :: rest2 => (true, rest2.takeWhile Char.isDigit, rest2.dropWhile Char.isDigit)
      | '+' :: rest2 => (false, rest2.takeWhile Char.isDigit, rest2.dropWhile Char.isDigit)
      | _ => (false, rest.takeWhile Char.isDigit, rest.dropWhile Char.isDigit)
    | _ => (false, [], s3)
  if (s3 ≠ [] ∧ (s3.headD ' ' = 'e' ∨ s3.headD ' ' = 'E')) ∧ expDs = [] then none else
  let base : ℚ :=
    if fracDs = [] then (digitsVal intDs : ℚ)
    else (digitsVal (intDs ++ fracDs) : ℚ) / (10 ^ fracDs.length)
  let signed : ℚ := if neg then -base else base
  let valued : ℚ :=
    if expDs = [] then signed
    else if expNeg then signed / (10 ^ digitsVal expDs)
    else signed * (10 ^ digitsVal expDs)
  some (.num valued, s4)

mutual

/-- Fuel-indexed recursive-descent reader for one JSON value. -/
def readJsonValue : Nat → Str → Option (Json × Str)
  | 0, _ => none
  | fuel + 1, s =>
    match skipWs s with
    | [] => none
    | 'n' :: 'u' :: 'l' :: 'l' :: rest => some (.null, rest)
    | 't' :: 'r' :: 'u' :: 'e' :: rest => some (.bool true, rest)
    | 'f' :: 'a' :: 'l' :: 's' :: 'e' :: rest => some (.bool false, rest)
    | '"' :: rest =>
      match readJsonString rest with
      | some (str, r) => some (.str str, r)
      | none => none
    | '[' :: rest =>
      (match skipWs rest with
       | ']' :: r => some (.arr [], r)
       | other =>
         match readJsonItems fuel other with
         | some (xs, r) => some (.arr xs, r)
         | none => none)
    | '{' :: rest =>
      (match skipWs rest with
       | '}' :: r => some (.obj [], r)
       | other =>
         match readJsonMembers fuel other with
         | some (kvs, r) => some (.obj kvs, r)
         | none => none)
    | other => readJsonNumber other

/-- Read one or more comma-separated array items up to the closing bracket. -/
def readJsonItems : Nat → Str → Option (List Json × Str)
  | 0, _ => none
  | fuel + 1, s => do
    let (v, r) ← readJsonValue fuel s
    match skipWs r with
    | ']' :: r2 => some ([v], r2)
    | ',' :: r2 =>
      match readJsonItems fuel r2 with
      | some (vs, r3) => some (v :: vs, r3)
      | none => none
    | _ => none

/-- Read one or more comma-separated object members up to the closing brace. -/
def readJsonMembers : Nat → Str → Option (List (Str × Json) × Str)
  | 0, _ => none
  | fuel + 1, s => do
    match skipWs s with
    | '"' :: rest =>
      match readJsonString rest with
      | some (k, r) =>
        (match skipWs r with
         | ':' :: r2 => do
           let (v, r3) ← readJsonValue fuel r2
           match skipWs r3 with
           | '}' :: r4 => some ([(k, v)], r4)
           | ',' :: r4 =>
             match readJsonMembers fuel r4 with
             | some (kvs, r5) => some ((k, v) :: kvs, r5)
             | none => none
           | _ => none
         | _ => none)
      | none => none
    | _ => none

end

/-- Model of `json.loads`: read one value and require only whitespace after
it. -/
def pyJsonLoads (s : Str) : Option Json :=
  match readJsonValue (s.length + 1) s with
  | some (j, rest) => if (skipWs rest).isEmpty then some j else none
  | none => none

/-! ## Task store (src/config.py TaskStatus, src/task_manager.py) -/

/-- Task status constants from config.py. -/
def statusPending : Str := "pending".data

/-- Status string of a task being worked on. -/
def statusInProgress : Str := "in_progress".data

/-- Status string of a finished task. -/
def statusCompleted : Str := "completed".data

/-- Status string of a failed task. -/
def statusFailed : Str := "failed".data

/-- Task record from task_manager.py (dataclass `Task`). -/
structure Task where
  id : Str
  description : Str
  steps : List Str := []
  status : Str := statusPending
  session_id : Option Str := none
  error_message : Option Str := none
  notes : Option Str := none

/-- Conversion of every element, `none` as soon as one element fails; the
Option-valued traversal of the list comprehension in `parse_task_id`. -/
def mapOption? (f : α → Option β) : List α → Option (List β)
  | [] => some []
  | a :: as =>
    match f a, mapOption? f as with
    | some b, some bs => some (b :: bs)
    | _, _ => none

/-- Embedding of `parse_task_id` (task_manager.py): split the id on dots and
convert each segment with `int(...)`; if any segment fails, fall back to the
character-code list of the whole id. -/
def parse_task_id (tid : Str) : List Int :=
  match mapOption? pyInt? (splitOnChar '.' tid) with
  | some l => l
  | none => tid.map (fun c => (c.toNat : Int))

/-- Lexicographic comparison of integer lists, the order Python uses to
compare the list-of-int sort keys produced by `parse_task_id` (a strict
proper-prefix compares as smaller). -/
def intListLe : List Int → List Int → Bool
  | [], _ => true
  | _ :: _, [] => false
  | a :: as, b :: bs =>
    if a < b then true
    else if b < a then false
    else intListLe as bs

/-- Insert an element into a list so that it lands before the first entry `y`
with `le x y`; keeps insertion stable for equal keys. -/
def insortBy (le : α → α → Bool) (x : α) : List α → List α
  | [] => [x]
  | y :: ys => if le x y then x :: y :: ys else y :: insortBy le x ys

/-- Stable insertion sort.  `list.sort(key=...)` in Python is a stable sort
for the same total preorder, and stable sorts agree pointwise, so this is a
faithful model of its output. -/
def sortBy (le : α → α → Bool) : List α → List α
  | [] => []
  | x :: xs => insortBy le x (sortBy le xs)

/-- Sort key order on tasks used by `get_next_task`. -/
def taskKeyLe (t u : Task) : Bool := intListLe (parse_task_id t.id) (parse_task_id u.id)

/-- Membership of a task status in `(TaskStatus.PENDING, TaskStatus.IN_PROGRESS)`. -/
def eligibleStatus (t : Task) : Bool :=
  t.status == statusPending || t.status == statusInProgress

/-- Embedding of `TaskManager.get_next_task`: filter to pending/in-progress
tasks (`eligible_tasks`), sort by the path-code key, and return the first. -/
def get_next_task (tasks : List Task) : Option Task :=
  if (tasks.filter eligibleStatus).isEmpty then none
  else (sortBy taskKeyLe (tasks.filter eligibleStatus)).head?

/-- Embedding of `TaskManager.mark_completed` on one task record: the status
becomes completed and no other field (in particular `notes`) is touched. -/
def markCompleted (t : Task) : Task := { t with status := statusCompleted }

/-- Claim-side reading of a task id as its decimal integer segments ("the
id's integer-segment sequence"). -/
def idIntSegments (tid : Str) : List Int :=
  (splitOnChar '.' tid).map (fun seg => (digitsVal seg : Int))

/-- Claim-side validity of a task id: a dot-separated sequence of decimal
integers. -/
def validTaskId (tid : Str) : Prop :=
  ∀ seg ∈ splitOnChar '.' tid, seg ≠ [] ∧ seg.all isAsciiDigit = true

/-- Validity of a task id is decidable, so concrete instances evaluate. -/
instance (tid : Str) : Decidable (validTaskId tid) :=
  List.decidableBAll (fun seg => seg ≠ [] ∧ seg.all isAsciiDigit = true) (splitOnChar '.' tid)

/-! ## Supervisor (src/supervisor.py) -/

/-- Decision enum from supervisor.py: the four members it actually defines. -/
inductive Decision where
  | CONTINUE
  | SPLIT
  | WAIT_BACKGROUND
  | INTERVENE
  deriving DecidableEq

/-- String value of each Decision member (`Decision(...).value`). -/
def Decision.value : Decision → Str
  | .CONTINUE => "continue".data
  | .SPLIT => "split".data
  | .WAIT_BACKGROUND => "wait".data
  | .INTERVENE => "intervene".data

/-- SupervisorResult dataclass from supervisor.py.  Its fields are exactly
`decision`, `reason`, `subtasks`, `suggestion`; non-string `reason` payloads
only flow into display text, so `reason` is modelled as a string. -/
structure SupervisorResult where
  decision : Decision
  reason : Str
  subtasks : Option (List Json) := none
  suggestion : Option Json := none

/-- Field names of the SupervisorResult dataclass, in declaration order. -/
def supervisorResultFields : List Str :=
  ["decision".data, "reason".data, "subtasks".data, "suggestion".data]

/-- Mapping from a decision string to a Decision, the dictionary lookup in
`_parse_response` with default `Decision.CONTINUE`. -/
def decisionOfStr (s : Str) : Decision :=
  if s = "continue".data then .CONTINUE
  else if s = "split".data then .SPLIT
  else if s = "wait".data then .WAIT_BACKGROUND
  else if s = "intervene".data then .INTERVENE
  else .CONTINUE

/-- Embedding of the body of `Supervisor._parse_response`: the slice between
the found braces is handed to `json.loads`; exceptions other than
`json.JSONDecodeError` (attribute errors from calling `.lower()` on a
non-string decision, or `.get` on a non-object document) propagate to the
caller and are modelled with `Except.error`. -/
def parseResponseSlice (text : Str) (jsonStart closeIdx : Nat) : Except Str SupervisorResult :=
  match pyJsonLoads (pySlice text jsonStart (closeIdx + 1)) with
    | none => .ok ⟨.CONTINUE, "JSON 解析失败，继续等待".data, none, none⟩
    | some (Json.obj kvs) =>
      match jsonGetD kvs "decision".data (Json.str "continue".data) with
      | Json.str rawDecision =>
        let decision := decisionOfStr (pyLower rawDecision)
        let reason : Str :=
          match jsonGetD kvs "reason".data (Json.str []) with
          | Json.str s => s
          | _ => []
        if decision = .SPLIT then
          match jsonGetD kvs "subtasks".data (Json.arr []) with
          | Json.arr (x :: xs) => .ok ⟨decision, reason, some (x :: xs), none⟩
          | _ => .ok ⟨.CONTINUE, "分裂任务格式错误，继续等待".data, none, none⟩
        else
          let suggestion :=
            if decision = .INTERVENE then jsonLookup kvs "suggestion".data else none
          .ok ⟨decision, reason, none, suggestion⟩
      | _ => .error "AttributeError: lower".data
    | some _ => .error "AttributeError: get".data

/-- Embedding of `Supervisor._parse_response`, outer structure: locate the
first opening and last closing brace and parse the spanned slice; without a
brace pair the decision defaults to continue. -/
def parse_response (text : Str) : Except Str SupervisorResult :=
  match pyFind '{' text, pyRFind '}' text with
  | none, _ => .ok ⟨.CONTINUE, "无法解析响应，继续等待".data, none, none⟩
  | _, none => .ok ⟨.CONTINUE, "无法解析响应，继续等待".data, none, none⟩
  | some jsonStart, some closeIdx => parseResponseSlice text jsonStart closeIdx

/-- Outcome of the `subprocess.run` call inside `Supervisor.analyze`. -/
inductive AnalyzeOutcome where
  | timeout
  | exc
  | output (stdout : Str)

/-- Embedding of `Supervisor.analyze`: run the agent, decode its
`--output-format json` stdout, extract the `result` text, and parse it; every
exception raised inside the `try` block falls back to a CONTINUE result. -/
def analyze (o : AnalyzeOutcome) : SupervisorResult :=
  match o with
  | .timeout => ⟨.CONTINUE, "分析超时，继续等待".data, none, none⟩
  | .exc => ⟨.CONTINUE, "分析失败".data, none, none⟩
  | .output stdout =>
    let attempt : Except Str SupervisorResult :=
      match pyJsonLoads stdout with
      | none => .error "json.JSONDecodeError".data
      | some (Json.obj kvs) =>
        match jsonGetD kvs "result".data (Json.str []) with
        | Json.str outputText => parse_response outputText
        | _ => .error "AttributeError: find".data
      | some _ => .error "AttributeError: get".data
    match attempt with
    | .ok r => r
    | .error _ => ⟨.CONTINUE, "分析失败".data, none, none⟩

/-- Spec-side reading of C8: the first position in the text at which a
well-formed JSON value can be read, restricted to object openers. -/
def firstWellFormedJsonObject (text : Str) : Option Json :=
  go (text.length + 1) text
where
  go (fuel : Nat) : Str → Option Json
    | [] => none
    | c :: rest =>
      if c = '{' then
        match readJsonValue fuel (c :: rest) with
        | some (j, _) => some j
        | none => go fuel rest
      else go fuel rest

/-- Spec-side reading of C8 continued: the decision named by a JSON object,
under the supervisor's own decision-string mapping. -/
def specDecisionOfObject : Json → Option Decision
  | Json.obj kvs =>
    match jsonGetD kvs "decision".data (Json.str "continue".data) with
    | Json.str s => some (decisionOfStr (pyLower s))
    | _ => none
  | _ => none

/-- Projection of a parse outcome to the decision it carries. -/
def decisionOf (x : Except Str SupervisorResult) : Option Decision :=
  match x with
  | .ok r => some r.decision
  | .error _ => none

/-! ## Engine supervisor-queue drain (src/main.py, run loop) -/

/-- Runtime value of a SupervisorResult attribute. -/
inductive SvAttr where
  | dec (d : Decision)
  | strv (s : Str)
  | subtasksVal (x : Option (List Json))
  | suggestionVal (x : Option Json)

/-- Python attribute lookup on a SupervisorResult instance: defined exactly on
the dataclass fields. -/
def svGetAttr (r : SupervisorResult) (name : Str) : Option SvAttr :=
  if name = "decision".data then some (.dec r.decision)
  else if name = "reason".data then some (.strv r.reason)
  else if name = "subtasks".data then some (.subtasksVal r.subtasks)
  else if name = "suggestion".data then some (.suggestionVal r.suggestion)
  else none

/-- Outcome of draining one supervisor result in the engine loop. -/
inductive DrainOutcome where
  | decisionHandled
  | loggedContinue
  deriving DecidableEq

/-- Embedding of the engine loop's queue-drain step for one delivered
SupervisorResult (main.py run loop): the first operation performed on the
result object is the attribute read `sv_result.cost_usd`; only afterwards
would the decision branch (`sv_result.decision != Decision.CONTINUE`) run. -/
def supervisorQueueDrainStep (r : SupervisorResult) : Except Str DrainOutcome :=
  match svGetAttr r "cost_usd".data with
  | none => .error "AttributeError: SupervisorResult object has no attribute cost_usd".data
  | some _ =>
    if r.decision ≠ .CONTINUE then .ok .decisionHandled else .ok .loggedContinue

/-! ## Cost estimation and the interrupt-time ledger (src/cost_tracker.py, src/main.py) -/

/-- Numeric coercion used where Python compares or maxes a decoded JSON value
with a number: numbers stand for themselves, booleans count as 0/1, anything
else raises TypeError. -/
def asNumE : Json → Except Unit ℚ
  | .num q => .ok q
  | .bool b => .ok (if b then 1 else 0)
  | _ => .error ()

/-- Decode one log line as the per-line loop does: strip it, skip it when
empty, and drop it when `json.loads` fails. -/
def decodedLine (line : Str) : Option Json :=
  let l := pyStrip line
  if l.isEmpty then none else pyJsonLoads l

/-- Events decoded from a list of log lines. -/
def decodedEvents (lines : List Str) : List Json := lines.filterMap decodedLine

/-- String payload of a JSON value, when it is a string. -/
def strOfJson : Json → Option Str
  | .str s => some s
  | _ => none

/-- Comparison of a decoded JSON value against a string literal, the model of
Python `value == "lit"` (false, never raising, on non-strings). -/
def jsonEqStr (j : Json) (s : Str) : Bool :=
  match j with
  | .str t => t == s
  | _ => false

/-- Processing of one decoded event inside `estimate_cost_from_log`: either an
early return with a positive observed result cost, or updated running maxima;
`Except.error` models an exception reaching the enclosing handler. -/
def estimateStep (inTok outTok : ℚ) (event : Json) : Except Unit (ℚ ⊕ (ℚ × ℚ)) :=
  match event with
  | Json.obj kvs =>
    let ty := strOfJson (jsonGetD kvs "type".data (Json.str []))
    if ty = some "result".data then do
      let c ← asNumE (jsonGetD kvs "total_cost_usd".data (Json.num 0))
      if 0 < c then .ok (.inl c) else .ok (.inr (inTok, outTok))
    else if ty = some "assistant".data then
      match jsonGetD kvs "message".data (Json.obj []) with
      | Json.obj mkvs =>
        (match jsonGetD mkvs "usage".data (Json.obj []) with
         | Json.obj [] => .ok (.inr (inTok, outTok))
         | Json.obj ukvs => do
           let iv ← asNumE (jsonGetD ukvs "input_tokens".data (Json.num 0))
           let ov ← asNumE (jsonGetD ukvs "output_tokens".data (Json.num 0))
           .ok (.inr (max inTok iv, max outTok ov))
         | u => if pyTruthy u then .error () else .ok (.inr (inTok, outTok)))
      | _ => .error ()
    else .ok (.inr (inTok, outTok))
  | _ => .error ()

/-- Line-by-line loop of `estimate_cost_from_log`, with the final pricing
formula applied once the file is exhausted; any exception returns 0.0. -/
def estimateGo : List Str → ℚ → ℚ → ℚ
  | [], inTok, outTok =>
    if 0 < inTok ∨ 0 < outTok then (inTok * 3 + outTok * 15) / 1000000 else 0
  | line :: rest, inTok, outTok =>
    match decodedLine line with
    | none => estimateGo rest inTok outTok
    | some j =>
      match estimateStep inTok outTok j with
      | .error _ => 0
      | .ok (.inl c) => c
      | .ok (.inr (i, o)) => estimateGo rest i o

/-- Embedding of `estimate_cost_from_log` over the lines of the log file. -/
def estimate_cost_from_log (lines : List Str) : ℚ := estimateGo lines 0 0

/-- Numeric value the claim reads off a JSON token-count field (0 for the
non-numeric payloads the hypotheses exclude). -/
def qOfJson : Json → ℚ
  | .num q => q
  | .bool b => if b then 1 else 0
  | _ => 0

/-- Claim-side usage of one decoded event: the (input, output) token pair of
an assistant event carrying a non-empty usage object. -/
def specUsagePair (j : Json) : Option (ℚ × ℚ) :=
  match j with
  | Json.obj kvs =>
    if strOfJson (jsonGetD kvs "type".data (Json.str [])) = some "assistant".data then
      match jsonGetD kvs "message".data (Json.obj []) with
      | Json.obj mkvs =>
        (match jsonGetD mkvs "usage".data (Json.obj []) with
         | Json.obj [] => none
         | Json.obj ukvs =>
           some (qOfJson (jsonGetD ukvs "input_tokens".data (Json.num 0)),
                 qOfJson (jsonGetD ukvs "output_tokens".data (Json.num 0)))
         | _ => none)
      | _ => none
    else none
  | _ => none

/-- Claim-side maximum input-token count seen on any assistant event. -/
def specMaxIn (lines : List Str) : ℚ :=
  ((decodedEvents lines).filterMap specUsagePair).foldr (fun p m => max p.1 m) 0

/-- Claim-side maximum output-token count seen on any assistant event. -/
def specMaxOut (lines : List Str) : ℚ :=
  ((decodedEvents lines).filterMap specUsagePair).foldr (fun p m => max p.2 m) 0

/-- Total-cost field of a decoded result event, when the event is one. -/
def resultCostOf (j : Json) : Option Json :=
  match j with
  | Json.obj kvs =>
    if strOfJson (jsonGetD kvs "type".data (Json.str [])) = some "result".data then
      some (jsonGetD kvs "total_cost_usd".data (Json.num 0))
    else none
  | _ => none

/-- An event `estimate_cost_from_log` can process without raising: a JSON
object whose result cost is numeric and whose assistant usage, when truthy,
is an object with numeric token counts. -/
def eventProcessable (j : Json) : Bool :=
  match j with
  | Json.obj kvs =>
    let ty := strOfJson (jsonGetD kvs "type".data (Json.str []))
    if ty = some "result".data then
      match asNumE (jsonGetD kvs "total_cost_usd".data (Json.num 0)) with
      | .ok _ => true
      | .error _ => false
    else if ty = some "assistant".data then
      match jsonGetD kvs "message".data (Json.obj []) with
      | Json.obj mkvs =>
        (match jsonGetD mkvs "usage".data (Json.obj []) with
         | Json.obj [] => true
         | Json.obj ukvs =>
           (match asNumE (jsonGetD ukvs "input_tokens".data (Json.num 0)),
                  asNumE (jsonGetD ukvs "output_tokens".data (Json.num 0)) with
            | .ok _, .ok _ => true
            | _, _ => false)
         | u => !pyTruthy u)
      | _ => false
    else true
  | _ => false

/-- Hypothesis of the amended C7: every decoded line processes without an
exception and no result event carries a positive cost. -/
def estimableLog (lines : List Str) : Prop :=
  ∀ j ∈ decodedEvents lines,
    eventProcessable j = true ∧
    ∀ cj, resultCostOf j = some cj → ∀ c, asNumE cj = Except.ok c → c ≤ 0

/-- WorkerLog fields tracked by `WorkerProcess.read_log` (worker.py); the
`events` accumulator is omitted because it feeds no field below, but the
exceptions its construction can raise are modelled in `parseLogEvent`. -/
structure WorkerLogS where
  session_id : Json := Json.null
  model : Json := Json.null
  is_complete : Bool := false
  is_error : Json := Json.bool false
  result : Json := Json.str []
  cost_usd : Json := Json.num 0
  duration_ms : Json := Json.num 0

/-- Iteration of Python `for block in content`: lists yield their elements;
empty dicts and strings yield nothing; non-empty dicts and strings yield
values whose `.get` raises; other values are not iterable. -/
def iterBlocksE : Json → Except Unit (List Json)
  | .arr xs => .ok xs
  | .obj [] => .ok []
  | .str [] => .ok []
  | _ => .error ()

/-- Exception behaviour of the assistant-branch event accumulation in
`WorkerProcess._parse_event`: `.ok` when every block processes, `.error` when
a text payload is not a string or a summarised tool-input field is not a
string. -/
def parseEventBlocksOk (blocks : List Json) : Except Unit Unit :=
  match blocks with
  | [] => .ok ()
  | block :: rest =>
    match block with
    | Json.obj bkvs =>
      let bty := strOfJson (jsonGetD bkvs "type".data (Json.str []))
      if bty = some "text".data then
        match jsonGetD bkvs "text".data (Json.str []) with
        | Json.str _ => parseEventBlocksOk rest
        | _ => .error ()
      else if bty = some "tool_use".data then
        let toolName := jsonGetD bkvs "name".data (Json.str "unknown".data)
        (match jsonGetD bkvs "input".data (Json.obj []) with
         | Json.obj ikvs =>
           let strField (k : Str) : Except Unit Unit :=
             match jsonGetD ikvs k (Json.str []) with
             | Json.str _ => .ok ()
             | _ => .error ()
           let check : Except Unit Unit :=
             if jsonEqStr toolName "Bash".data then strField "command".data
             else if jsonEqStr toolName "Read".data || jsonEqStr toolName "Write".data ||
                 jsonEqStr toolName "Edit".data then strField "file_path".data
             else if jsonEqStr toolName "Grep".data then strField "pattern".data
             else if jsonEqStr toolName "Glob".data then strField "pattern".data
             else .ok ()
           (match check with
            | .ok _ => parseEventBlocksOk rest
            | .error _ => .error ())
         | _ => parseEventBlocksOk rest)
      else parseEventBlocksOk rest
    | _ => .error ()

/-- Embedding of `WorkerProcess._parse_event` restricted to the scalar
fields. -/
def parseLogEvent (event : Json) (st : WorkerLogS) : Except Unit WorkerLogS :=
  match event with
  | Json.obj kvs =>
    let ty := strOfJson (jsonGetD kvs "type".data (Json.str []))
    if ty = some "system".data then
      if jsonEqStr (jsonGetD kvs "subtype".data (Json.str [])) "init".data then
        .ok { st with
          session_id := jsonGetD kvs "session_id".data Json.null,
          model := jsonGetD kvs "model".data Json.null }
      else .ok st
    else if ty = some "assistant".data then
      match jsonGetD kvs "message".data (Json.obj []) with
      | Json.obj mkvs =>
        (match iterBlocksE (jsonGetD mkvs "content".data (Json.arr [])) with
         | .error u => .error u
         | .ok blocks =>
           match parseEventBlocksOk blocks with
           | .error u => .error u
           | .ok _ => .ok st)
      | _ => .error ()
    else if ty = some "result".data then
      .ok { st with
        is_complete := true,
        is_error := jsonGetD kvs "is_error".data (Json.bool false),
        result := jsonGetD kvs "result".data (Json.str []),
        cost_usd := jsonGetD kvs "total_cost_usd".data (Json.num 0),
        duration_ms := jsonGetD kvs "duration_ms".data (Json.num 0),
        session_id := jsonGetD kvs "session_id".data st.session_id }
    else .ok st
  | _ => .error ()

/-- Embedding of `WorkerProcess.read_log`: fold the decoded lines through
`parseLogEvent`; an exception abandons the loop and returns the partial
record. -/
def readLogGo : List Str → WorkerLogS → WorkerLogS
  | [], st => st
  | line :: rest, st =>
    match decodedLine line with
    | none => readLogGo rest st
    | some j =>
      match parseLogEvent j st with
      | .error _ => st
      | .ok st' => readLogGo rest st'

/-- Parsed log of a worker, from its log-file lines. -/
def read_log (lines : List Str) : WorkerLogS := readLogGo lines {}

/-- Cost-ledger record (cost_tracker.py `CostRecord` as persisted). -/
structure CostRecordS where
  source : Str
  cost_usd : ℚ
  task_id : Option Str
  details : Str
  estimated : Bool

/-- Embedding of `CostTracker.add`: non-positive costs are dropped, anything
else appends one record. -/
def costTrackerAdd (records : List CostRecordS) (source : Str) (cost : ℚ)
    (taskId : Option Str) (details : Str) (estimated : Bool) : List CostRecordS :=
  if cost ≤ 0 then records
  else records ++ [⟨source, cost, taskId, details, estimated⟩]

/-- Embedding of the worker-cost recording at the top of the engine's
KeyboardInterrupt handler (main.py): use the parsed log's result cost when
positive, otherwise fall back to `estimate_cost_from_log` tagged
`estimated=True`; comparing a non-numeric parsed cost raises. -/
def interruptWorkerCostRecords (lines : List Str) (taskId : Option Str) :
    Except Unit (List CostRecordS) :=
  let wl := read_log lines
  match asNumE wl.cost_usd with
  | .error u => .error u
  | .ok c =>
    if 0 < c then
      .ok (costTrackerAdd [] "worker".data c taskId "Interrupted by Ctrl+C".data false)
    else
      let e := estimate_cost_from_log lines
      if 0 < e then
        .ok (costTrackerAdd [] "worker".data e taskId "Estimated (interrupted)".data true)
      else .ok []

/-! ## Worker incremental log reading (src/worker.py read_new_events) -/

/-- Apostrophe character, used by Python repr of strings. -/
def pyQuote : Char := Char.ofNat 39

/-- Decimal digits of a natural number. -/
def natToStr (n : Nat) : Str := Nat.toDigits 10 n

/-- Decimal rendering of an integer. -/
def intToStr (i : Int) : Str :=
  if i < 0 then '-' :: natToStr i.natAbs else natToStr i.natAbs

/-- Display rendering of a JSON number (display-only; a non-integral value is
rendered as an exact fraction rather than a binary float repr). -/
def qToStr (q : ℚ) : Str :=
  if q.den = 1 then intToStr q.num
  else intToStr q.num ++ "/".data ++ natToStr q.den

mutual

/-- Python `repr` of a decoded JSON value (display-only; string escapes are
not reproduced). -/
def pyReprOfJson : Json → Str
  | .null => "None".data
  | .bool true => "True".data
  | .bool false => "False".data
  | .num q => qToStr q
  | .str s => pyQuote :: (s ++ [pyQuote])
  | .arr xs => '[' :: (pyReprList xs ++ [']'])
  | .obj kvs => '{' :: (pyReprMembers kvs ++ ['}'])

/-- Comma-separated reprs of list elements. -/
def pyReprList : List Json → Str
  | [] => []
  | [x] => pyReprOfJson x
  | x :: y :: rest => pyReprOfJson x ++ ", ".data ++ pyReprList (y :: rest)

/-- Comma-separated reprs of dict members. -/
def pyReprMembers : List (Str × Json) → Str
  | [] => []
  | [(k, v)] => (pyQuote :: (k ++ [pyQuote])) ++ ": ".data ++ pyReprOfJson v
  | (k, v) :: m :: rest =>
    (pyQuote :: (k ++ [pyQuote])) ++ ": ".data ++ pyReprOfJson v ++ ", ".data ++
      pyReprMembers (m :: rest)

end

/-- Python `str(...)` of a decoded JSON value. -/
def pyStrOfJson : Json → Str
  | .str s => s
  | j => pyReprOfJson j

/-- Extraction requiring a string payload; the model of calling a string
method or slice on the value (TypeError / AttributeError otherwise). -/
def strOfJsonE : Json → Except Unit Str
  | .str s => .ok s
  | _ => .error ()

/-- Model of `os.path.basename`. -/
def pyBasename (s : Str) : Str := (splitOnChar '/' s).getLastD []

/-- Remainder of the string after the first occurrence of `sep`, the model of
`s.split(sep)[1:]` joined back (none when `sep` does not occur). -/
def afterFirstSub (sep : Str) : Str → Option Str
  | [] => if sep.isEmpty then some [] else none
  | c :: rest =>
    if beginsWith sep (c :: rest) then some ((c :: rest).drop sep.length)
    else afterFirstSub sep rest

/-- First present key of the scan list, rendered with `str(...)[:40]`; the
fallback branch of `_summarize_tool_input`. -/
def fallbackKeyScan (ikvs : List (Str × Json)) : List Str → Str
  | [] => []
  | k :: rest =>
    match jsonLookup ikvs k with
    | some v => (pyStrOfJson v).take 40
    | none => fallbackKeyScan ikvs rest

/-- Embedding of `WorkerProcess._summarize_tool_input` (worker.py); a string
operation on a non-string payload raises. -/
def summarizeToolInputW (toolName toolInput : Json) : Except Unit Str :=
  match toolInput with
  | Json.obj ikvs =>
    let get (k : Str) : Json := jsonGetD ikvs k (Json.str [])
    if jsonEqStr toolName "Bash".data then do
      let cmd ← strOfJsonE (get "command".data)
      if cmd.length > 60 then .ok (cmd.take 57 ++ "...".data) else .ok cmd
    else if jsonEqStr toolName "Read".data || jsonEqStr toolName "Write".data ||
        jsonEqStr toolName "Edit".data then do
      let path ← strOfJsonE (get "file_path".data)
      .ok (pyBasename path)
    else if jsonEqStr toolName "Grep".data then do
      let pattern ← strOfJsonE (get "pattern".data)
      let pat := pattern.take 30
      let pathJ := get "path".data
      if pyTruthy pathJ then do
        let path ← strOfJsonE pathJ
        .ok (pat ++ " in ".data ++ pyBasename path)
      else .ok pat
    else if jsonEqStr toolName "Glob".data then do
      let p ← strOfJsonE (get "pattern".data)
      .ok (p.take 40)
    else if jsonEqStr toolName "Task".data then do
      let d ← strOfJsonE (get "description".data)
      .ok (d.take 40)
    else if jsonEqStr toolName "WebFetch".data then do
      let url ← strOfJsonE (get "url".data)
      let url2 :=
        match afterFirstSub "://".data url with
        | some tail => tail.takeWhile (fun c => c ≠ '/')
        | none => url
      .ok (url2.take 40)
    else if jsonEqStr toolName "WebSearch".data then do
      let q ← strOfJsonE (get "query".data)
      .ok (q.take 40)
    else
      .ok (fallbackKeyScan ikvs
        ["pattern".data, "query".data, "command".data, "file_path".data, "path".data])
  | _ => .ok []

/-- Display event emitted by `_parse_event_for_display` (worker.py); the
dictionaries it builds, as a variant record.  Payloads copied verbatim from
the decoded JSON keep their `Json` type. -/
inductive DispEvent where
  | textEv (content : Str)
  | toolEv (name : Json) (input : Str)
  | resultEv (isError : Json) (result : Str)

/-- Scan of assistant content blocks in `_parse_event_for_display`: the first
long-enough text block or tool_use block produces the (single) display
event. -/
def scanDisplayBlocks : List Json → Except Unit (Option DispEvent)
  | [] => .ok none
  | block :: rest =>
    match block with
    | Json.obj bkvs =>
      let bty := strOfJson (jsonGetD bkvs "type".data (Json.str []))
      if bty = some "text".data then do
        let text ← strOfJsonE (jsonGetD bkvs "text".data (Json.str []))
        let t := pyStrip text
        if t.length > 10 then .ok (some (.textEv (t.take 100)))
        else scanDisplayBlocks rest
      else if bty = some "tool_use".data then do
        let toolName := jsonGetD bkvs "name".data (Json.str "unknown".data)
        let toolInput := jsonGetD bkvs "input".data (Json.obj [])
        let summary ← summarizeToolInputW toolName toolInput
        .ok (some (.toolEv toolName summary))
      else scanDisplayBlocks rest
    | _ => .error ()

/-- Embedding of `WorkerProcess._parse_event_for_display`. -/
def parseEventForDisplay (event : Json) : Except Unit (Option DispEvent) :=
  match event with
  | Json.obj kvs =>
    let ty := strOfJson (jsonGetD kvs "type".data (Json.str []))
    if ty = some "assistant".data then
      match jsonGetD kvs "message".data (Json.obj []) with
      | Json.obj mkvs => do
        let blocks ← iterBlocksE (jsonGetD mkvs "content".data (Json.arr []))
        scanDisplayBlocks blocks
      | _ => .error ()
    else if ty = some "result".data then
      let isErr := jsonGetD kvs "is_error".data (Json.bool false)
      match jsonGetD kvs "result".data (Json.str []) with
      | Json.str r => .ok (some (.resultEv isErr (r.take 50)))
      | _ => .error ()
    else .ok none
  | _ => .error ()

/-- Per-line loop of `read_new_events`: decode failures are skipped, any
other exception ends the read keeping the events gathered so far (flag
`false`), and the flag is `true` when the loop reached end of file. -/
def processRegionLines : List Str → List DispEvent × Bool
  | [] => ([], true)
  | line :: rest =>
    match decodedLine line with
    | none => processRegionLines rest
    | some j =>
      match parseEventForDisplay j with
      | .error _ => ([], false)
      | .ok none => processRegionLines rest
      | .ok (some e) =>
        let (evs, flag) := processRegionLines rest
        (e :: evs, flag)

/-- Embedding of `WorkerProcess.read_new_events` over the file state: read
from the stored offset to end of file; the offset advances to `f.tell()`
only when the loop completes, and is left unchanged when an exception was
swallowed (or when the log file does not exist). -/
def read_new_events (file : Option Str) (pos : Nat) : List DispEvent × Nat :=
  match file with
  | none => ([], pos)
  | some content =>
    let region := content.drop pos
    match processRegionLines (splitNl region) with
    | (evs, true) => (evs, max pos content.length)
    | (evs, false) => (evs, pos)

/-- Display events decodable from a list of lines: decode failures and
event-processing failures contribute nothing. -/
def displayEventsOfLines (lines : List Str) : List DispEvent :=
  lines.filterMap fun line =>
    match decodedLine line with
    | none => none
    | some j =>
      match parseEventForDisplay j with
      | .ok e => e
      | .error _ => none

/-- Claim-side reading of C10: the display events decodable from a byte
region. -/
def decodableDisplayEvents (region : Str) : List DispEvent :=
  displayEventsOfLines (splitNl region)

/-! ## Orchestrator (src/orchestrator.py) -/

/-- State of `tasks.json` as the orchestrator can observe it: the worktree
file and the git-index version consulted by `git checkout tasks.json` and
`git diff --quiet tasks.json`.  `none` means absent/untracked. -/
structure OrchFs where
  file : Option Str
  index : Option Str

/-- One `_call_claude` invocation as the engine observes it: the agent edits
the task-list file in place (the behaviour the orchestrator prompt demands)
and the call returns the result text, or `none` on a non-zero exit or an
exception; `cost` is the reported invocation cost. -/
structure AgentCall where
  edit : Option Str → Option Str
  output : Option Str
  cost : ℚ := 0

/-- OrchestratorResult dataclass. -/
structure OrchestratorResult where
  success : Bool
  message : Str := []
  cost_usd : ℚ := 0

/-- Orchestration retry bound (`self.max_orchestration_attempts`). -/
def maxOrchestrationAttempts : Nat := 3

/-- Review retry bound (`self.max_review_attempts`). -/
def maxReviewAttempts : Nat := 3

/-- Embedding of `_backup_tasks`: the file content when it exists. -/
def backupTasks (fs : OrchFs) : Option Str := fs.file

/-- Embedding of `_restore_backup`: nothing happens for a `None` backup;
otherwise the backup is written back and `git checkout tasks.json` then
reinstates the index version when the file is tracked. -/
def restoreBackup (backup : Option Str) (fs : OrchFs) : OrchFs :=
  match backup with
  | none => fs
  | some b =>
    let fs1 : OrchFs := { fs with file := some b }
    match fs1.index with
    | none => fs1
    | some idx => { fs1 with file := some idx }

/-- Orchestration attempt loop: call the agent up to the attempt bound until
an output contains `ORCHESTRATION_DONE`; returns the winning output (if
any), the file state, the next call index, and the accumulated cost. -/
def orchLoop (calls : Nat → AgentCall) :
    Nat → Nat → OrchFs → ℚ → Option Str × OrchFs × Nat × ℚ
  | idx, 0, fs, cost => (none, fs, idx, cost)
  | idx, attempts + 1, fs, cost =>
    let c := calls idx
    let fs' : OrchFs := { fs with file := c.edit fs.file }
    let cost' := cost + c.cost
    match c.output with
    | some out =>
      if containsSub "ORCHESTRATION_DONE".data out then (some out, fs', idx + 1, cost')
      else orchLoop calls (idx + 1) attempts fs' cost'
    | none => orchLoop calls (idx + 1) attempts fs' cost'

/-- Review attempt loop: succeed as soon as an output contains
`REVIEW_PASSED`; the for-else exhausting all attempts is a failure. -/
def reviewLoop (calls : Nat → AgentCall) :
    Nat → Nat → OrchFs → ℚ → Bool × OrchFs × Nat × ℚ
  | idx, 0, fs, cost => (false, fs, idx, cost)
  | idx, attempts + 1, fs, cost =>
    let c := calls idx
    let fs' : OrchFs := { fs with file := c.edit fs.file }
    let cost' := cost + c.cost
    match c.output with
    | some out =>
      if containsSub "REVIEW_PASSED".data out then (true, fs', idx + 1, cost')
      else reviewLoop calls (idx + 1) attempts fs' cost'
    | none => reviewLoop calls (idx + 1) attempts fs' cost'

/-- Hash key of a Python set element for the id-uniqueness check; unhashable
ids (lists, dicts) raise.  Booleans hash like their numeric value, as in
Python. -/
inductive SetKey where
  | noneKey
  | numKey (q : ℚ)
  | strKey (s : Str)
  deriving DecidableEq

/-- Key of one id value, or the TypeError `set(...)` raises on it. -/
def setKeyOf : Json → Except Unit SetKey
  | .null => .ok .noneKey
  | .bool b => .ok (.numKey (if b then 1 else 0))
  | .num q => .ok (.numKey q)
  | .str s => .ok (.strKey s)
  | _ => .error ()

/-- All-distinct check on a key list (`len(ids) == len(set(ids))`). -/
def allDistinct [DecidableEq α] : List α → Bool
  | [] => true
  | x :: xs => !xs.contains x && allDistinct xs

/-- Model of Python `k in t` for a decoded JSON container; raises on
non-containers. -/
def pyInJson (k : Str) : Json → Except Unit Bool
  | .obj kvs => .ok (jsonLookup kvs k).isSome
  | .arr xs => .ok (xs.any fun j => jsonEqStr j k)
  | .str s => .ok (containsSub k s)
  | _ => .error ()

/-- Comprehension `[t.get("id") for t in data if "id" in t]`. -/
def collectIds : List Json → Except Unit (List Json)
  | [] => .ok []
  | t :: rest => do
    let present ← pyInJson "id".data t
    if present then
      match t with
      | Json.obj kvs => do
        let ids ← collectIds rest
        .ok (jsonGetD kvs "id".data Json.null :: ids)
      | _ => .error ()
    else collectIds rest

/-- Required-field loop of `_validate_tasks`. -/
def checkRequiredFields : List Json → Except Unit Bool
  | [] => .ok true
  | t :: rest => do
    let hasId ← pyInJson "id".data t
    if !hasId then .ok false
    else do
      let hasDesc ← pyInJson "description".data t
      if !hasDesc then .ok false else checkRequiredFields rest

/-- Embedding of `_validate_tasks`: parse the file as a JSON list, require
distinct ids and id/description on every entry; any exception is caught and
reported as invalid. -/
def validateTasks (file : Option Str) : Bool :=
  match file with
  | none => false
  | some content =>
    match pyJsonLoads content with
    | none => false
    | some (Json.arr items) =>
      (match (do
        let ids ← collectIds items
        let keys ← ids.mapM setKeyOf
        if !allDistinct keys then pure false else checkRequiredFields items :
          Except Unit Bool) with
       | .ok b => b
       | .error _ => false)
    | some _ => false

/-- Worktree/index agreement probed by `git diff --quiet tasks.json`
(an untracked file shows no diff against the index). -/
def gitDiffClean (fs : OrchFs) : Bool :=
  match fs.index with
  | none => true
  | some i => fs.file == some i

/-- Embedding of `_commit_tasks`: nothing to commit when the diff is clean;
otherwise `git add tasks.json` stages the worktree version (the commit itself
is taken to succeed; its outcome only selects the success message). -/
def commitTasks (fs : OrchFs) : Bool × OrchFs :=
  if gitDiffClean fs then (false, fs)
  else (true, { fs with index := fs.file })

/-- Mechanical-validation and commit stage of `orchestrate` (steps 4 and 5):
restore on invalid JSON, otherwise commit when the file changed. -/
def orchestrateValidateStage (backup : Option Str) (fs2 : OrchFs) (cost2 : ℚ) :
    OrchestratorResult × OrchFs :=
  if !validateTasks fs2.file then
    (⟨false, "JSON 格式无效".data, cost2⟩, restoreBackup backup fs2)
  else
    let (committed, fs3) := commitTasks fs2
    if committed then (⟨true, "任务编排完成".data, cost2⟩, fs3)
    else (⟨true, "任务已调整（无需提交）".data, cost2⟩, fs3)

/-- Review stage of `orchestrate` (step 3): restore when the review attempts
are exhausted, otherwise continue with validation. -/
def orchestrateReviewStage (calls : Nat → AgentCall) (backup : Option Str)
    (nextIdx : Nat) (fs1 : OrchFs) (cost1 : ℚ) : OrchestratorResult × OrchFs :=
  let (reviewOk, fs2, _, cost2) := reviewLoop calls nextIdx maxReviewAttempts fs1 cost1
  if !reviewOk then
    (⟨false, "审视多次失败".data, cost2⟩, restoreBackup backup fs2)
  else orchestrateValidateStage backup fs2 cost2

/-- Embedding of `TaskOrchestrator.orchestrate`: snapshot, orchestration
attempts, review attempts, mechanical validation, then commit; every failure
path restores the snapshot. -/
def orchestrate (calls : Nat → AgentCall) (fs0 : OrchFs) : OrchestratorResult × OrchFs :=
  let backup := backupTasks fs0
  let (orchOut, fs1, nextIdx, cost1) := orchLoop calls 0 maxOrchestrationAttempts fs0 0
  match orchOut with
  | none =>
    (⟨false, "编排 3 次均未完成".data, cost1⟩, restoreBackup backup fs1)
  | some _ => orchestrateReviewStage calls backup nextIdx fs1 cost1

/-! ## Post-work validator and completion (src/validator.py, src/main.py) -/

/-- ValidationResult dataclass. -/
structure ValidationResult where
  success : Bool
  errors : List Str := []
  commit_message : Option Str := none

/-- Environment a `validate_and_commit` run observes: the changed files from
`git status --porcelain`, the syntax-check and pytest outcomes, and the
commit message `_generate_and_commit` produced (`none` when it failed). -/
structure ValidatorEnv where
  changedFiles : List Str
  syntaxErrors : List Str := []
  testsOk : Bool := true
  testErrors : List Str := []
  commitMessage : Option Str := none

/-- Join a string list with a separator (`sep.join(xs)`). -/
def pyJoin (sep : Str) : List Str → Str
  | [] => []
  | [x] => x
  | x :: y :: rest => x ++ sep ++ pyJoin sep (y :: rest)

/-- Embedding of `PostWorkValidator.validate_and_commit` acting on the task
record whose notes it updates: short-circuit success without touching notes
when nothing changed; failures write notes; a generated commit clears
them. -/
def validate_and_commit (env : ValidatorEnv) (t : Task) : ValidationResult × Task :=
  if env.changedFiles.isEmpty then ({ success := true }, t)
  else
    let pythonFiles := env.changedFiles.filter fun f => pyEndsWith f ".py".data
    if !pythonFiles.isEmpty && !env.syntaxErrors.isEmpty then
      let msg := "语法错误: ".data ++ pyJoin "; ".data env.syntaxErrors
      ({ success := false, errors := env.syntaxErrors }, { t with notes := some msg })
    else if !env.testsOk then
      let msg := "测试失败: ".data ++ pyJoin "; ".data env.testErrors
      ({ success := false, errors := env.testErrors }, { t with notes := some msg })
    else
      match env.commitMessage with
      | some m =>
        ({ success := true, commit_message := some m }, { t with notes := none })
      | none =>
        let msg := "无法生成 commit 信息".data
        ({ success := false, errors := [msg] }, { t with notes := some msg })

/-- Completion path of `_finalize_worker` after a clean worker exit: run the
validator and, on success, mark the task completed. -/
def finalizeCleanExit (env : ValidatorEnv) (t : Task) : Task × Bool :=
  let (res, t') := validate_and_commit env t
  if res.success then (markCompleted t', true) else (t', false)

/-! ## Interrupt handling (src/main.py KeyboardInterrupt) and worker cleanup -/

/-- CleanupResult dataclass from worker.py. -/
structure CleanupResult where
  success : Bool := false
  handover_summary : Option Str := none
  cleanup_done : Bool := false
  cost_usd : ℚ := 0

/-- Decision of the KeyboardInterrupt handler (main.py) to run
`git reset --hard` to the pre-task snapshot: a worker that already exited
counts as a successful dummy cleanup, a live worker contributes its
`graceful_shutdown` report, an absent worker leaves no cleanup result; the
reset runs only when cleanup did not succeed and a snapshot commit was
recorded. -/
def interruptResetsVcs (workerPresent workerAlive : Bool) (report : CleanupResult)
    (commitBeforeTask : Option Str) : Bool :=
  let cleanupSuccess :=
    if workerPresent then (if workerAlive then report.success else true) else false
  !cleanupSuccess && commitBeforeTask.isSome

/-! ## Failed-task retry gate (src/main.py run loop) -/

/-- Bound on consecutive failed-task orchestrations (main.py). -/
def MAX_FAILED_RETRIES : Nat := 3

/-- Head-of-loop failed-task gate of the engine: given the per-iteration
observations "some task is failed", it counts orchestrator recovery runs and
reports whether the loop stopped to print the failed-task details.  An
iteration without failed tasks resets the retry counter and proceeds. -/
def failedGateRun : Nat → List Bool → Nat × Bool
  | _, [] => (0, false)
  | retries, hasFailed :: rest =>
    if hasFailed then
      if retries ≥ MAX_FAILED_RETRIES then (0, true)
      else
        let (n, stopped) := failedGateRun (retries + 1) rest
        (n + 1, stopped)
    else failedGateRun 0 rest

/-! ## Concrete worker logs for the cost-estimation property -/

/-- Boolean counterpart of the estimable-log hypothesis, evaluable on
concrete logs. -/
def estimableLogB (lines : List Str) : Bool :=
  (decodedEvents lines).all fun j =>
    eventProcessable j &&
    (match resultCostOf j with
     | none => true
     | some cj =>
       match asNumE cj with
       | .ok c => decide (c ≤ 0)
       | .error _ => true)

/-- A one-line worker log: a single assistant event reporting 1200 input and
400 output tokens, and no result event. -/
def c7LogW : List Str :=
  ["\x7b\"type\": \"assistant\", \"message\": \x7b\"usage\": \x7b\"input_tokens\": 1200, \"output_tokens\": 400\x7d\x7d\x7d".data]

/-- The same assistant event followed by an assistant event whose `message`
field is the number 5, on which the estimator's `.get` chain raises. -/
def c7LogC : List Str :=
  ["\x7b\"type\": \"assistant\", \"message\": \x7b\"usage\": \x7b\"input_tokens\": 1200, \"output_tokens\": 400\x7d\x7d\x7d".data,
   "\x7b\"type\": \"assistant\", \"message\": 5\x7d".data]

/-! ## Theorems -/

/-- C3: every SupervisorResult delivered through the result queue is first
read at its `cost_usd` attribute by the engine's drain step; the dataclass
defines no such field, so the access raises AttributeError for every result,
whatever its decision, and the decision-handling branch is never reached. -/
theorem c3_supervisor_drain_raises (r : SupervisorResult) :
    supervisorQueueDrainStep r =
      Except.error "AttributeError: SupervisorResult object has no attribute cost_usd".data ∧
    "cost_usd".data ∉ supervisorResultFields := by
  refine ⟨rfl, ?_⟩
  decide

/-- C5: on a user interrupt during a task (a worker is present and alive and
a pre-task snapshot commit was recorded), the engine performs the VCS reset
to the snapshot exactly when the graceful-shutdown cleanup report is not a
success; a successful cleanup leaves the working tree alone. -/
theorem c5_interrupt_reset_iff_cleanup_failed (report : CleanupResult) (snapshot : Str) :
    interruptResetsVcs true true report (some snapshot) = true ↔
      report.success = false := by
  cases h : report.success <;> simp [interruptResetsVcs, h]

/-- C9: the failed-task gate runs the Orchestrator at most
MAX_FAILED_RETRIES = 3 times over any run of consecutive failed-task
iterations; a fourth consecutive failed iteration stops the loop (printing
the failed-task details); and any iteration without failed tasks resets the
retry counter to zero. -/
theorem c9_failed_retry_bound :
    MAX_FAILED_RETRIES = 3 ∧
    (∀ k : Nat, (failedGateRun 0 (List.replicate k true)).1 ≤ 3) ∧
    (∀ rest : List Bool, failedGateRun 0 (true :: true :: true :: true :: rest) = (3, true)) ∧
    (∀ (retries : Nat) (rest : List Bool),
      failedGateRun retries (false :: rest) = failedGateRun 0 rest) := by
  have key : ∀ (k r : Nat), (failedGateRun r (List.replicate k true)).1 ≤ 3 - r := by
    intro k
    induction k with
    | zero => intro r; simp [failedGateRun]
    | succ n ih =>
      intro r
      rw [List.replicate_succ]
      by_cases hr : r ≥ MAX_FAILED_RETRIES
      · simp [failedGateRun, hr]
      · rcases hms : failedGateRun (r + 1) (List.replicate n true) with ⟨m, s⟩
        have ihr := ih (r + 1)
        rw [hms] at ihr
        have hr3 : ¬ r ≥ 3 := hr
        simp [failedGateRun, hr, hms]
        omega
  refine ⟨rfl, ?_, ?_, ?_⟩
  · intro k
    have := key k 0
    omega
  · intro rest
    rfl
  · intro retries rest
    rfl

/-- C2 counterexample: a response whose decision field is "intervene" makes
`Supervisor.analyze` return `Decision.INTERVENE`, which is neither `continue`
nor `orchestrate`, so the claimed two-element decision set is wrong for the
code. -/
theorem c2_counterexample :
    (analyze (.output
      "\x7b\"result\": \"\x7b\\\"decision\\\": \\\"intervene\\\"\x7d\"\x7d".data)).decision =
      Decision.INTERVENE ∧
    Decision.value Decision.INTERVENE ∉ [("continue".data : Str), "orchestrate".data] :=
  ⟨rfl, by decide⟩

/-- C2 amended: every Supervisor analysis returns a decision drawn from
exactly the four-element set {continue, split, wait, intervene} of the
Decision enum — each of the four is realisable and no other value occurs. -/
theorem c2_amended :
    (∀ o : AnalyzeOutcome, (analyze o).decision ∈
      [Decision.CONTINUE, Decision.SPLIT, Decision.WAIT_BACKGROUND, Decision.INTERVENE]) ∧
    (∀ d : Decision, ∃ o : AnalyzeOutcome, (analyze o).decision = d) := by
  constructor
  · intro o
    cases (analyze o).decision <;> simp
  · intro d
    cases d with
    | CONTINUE => exact ⟨.timeout, rfl⟩
    | SPLIT =>
      exact ⟨.output
        "\x7b\"result\": \"\x7b\\\"decision\\\": \\\"split\\\", \\\"subtasks\\\": [1]\x7d\"\x7d".data,
        rfl⟩
    | WAIT_BACKGROUND =>
      exact ⟨.output "\x7b\"result\": \"\x7b\\\"decision\\\": \\\"wait\\\"\x7d\"\x7d".data, rfl⟩
    | INTERVENE =>
      exact ⟨.output "\x7b\"result\": \"\x7b\\\"decision\\\": \\\"intervene\\\"\x7d\"\x7d".data, rfl⟩

/-- C8 counterexample: with two well-formed JSON objects in the response, the
first one names decision "intervene", yet `_parse_response` slices from the
first opening brace to the last closing brace, fails to parse the combined
span, and returns CONTINUE — the first well-formed object does not determine
the decision. -/
theorem c8_counterexample :
    ((firstWellFormedJsonObject
        "\x7b\"decision\": \"intervene\"\x7d \x7b\"decision\": \"continue\"\x7d".data).bind
      specDecisionOfObject = some Decision.INTERVENE) ∧
    decisionOf (parse_response
        "\x7b\"decision\": \"intervene\"\x7d \x7b\"decision\": \"continue\"\x7d".data) =
      some Decision.CONTINUE ∧
    Decision.INTERVENE ≠ Decision.CONTINUE :=
  ⟨rfl, rfl, by decide⟩

/-- C8 amended: the span from the first opening brace to the last closing
brace, parsed as one JSON document, determines the decision; whenever no such
span exists or it fails to parse, the returned decision is continue — a parse
failure never yields an escalating decision. -/
theorem c8_amended (text : Str)
    (h : pyFind '{' text = none ∨ pyRFind '}' text = none ∨
      ∀ i j, pyFind '{' text = some i → pyRFind '}' text = some j →
        pyJsonLoads (pySlice text i (j + 1)) = none) :
    decisionOf (parse_response text) = some Decision.CONTINUE := by
  unfold parse_response
  cases hf : pyFind '{' text with
  | none => cases hr : pyRFind '}' text <;> rfl
  | some i =>
    cases hr : pyRFind '}' text with
    | none => rfl
    | some j =>
      rcases h with h | h | h
      · rw [hf] at h; exact absurd h (by simp)
      · rw [hr] at h; exact absurd h (by simp)
      · have hload := h i j hf hr
        show decisionOf (parseResponseSlice text i j) = some Decision.CONTINUE
        unfold parseResponseSlice
        rw [hload]
        rfl

/-- C8 amended, witness at a concrete input: a braceless response parses to
the default continue decision. -/
theorem c8_amended_witness :
    pyFind '{' "no json here".data = none ∧
    decisionOf (parse_response "no json here".data) = some Decision.CONTINUE :=
  ⟨rfl, c8_amended "no json here".data (Or.inl rfl)⟩

/-- Orchestration attempts edit only the worktree file, never the git
index. -/
theorem orchLoop_index (calls : Nat → AgentCall) :
    ∀ (attempts idx : Nat) (fs : OrchFs) (cost : ℚ),
      ((orchLoop calls idx attempts fs cost).2.1).index = fs.index := by
  intro attempts
  induction attempts with
  | zero => intro idx fs cost; rfl
  | succ n ih =>
    intro idx fs cost
    simp only [orchLoop]
    cases (calls idx).output with
    | none => exact ih (idx + 1) _ _
    | some out =>
      by_cases hdone : containsSub "ORCHESTRATION_DONE".data out = true
      · simp [hdone]
      · simp only [Bool.not_eq_true] at hdone
        simp [hdone]
        exact ih (idx + 1) _ _

/-- Review attempts edit only the worktree file, never the git index. -/
theorem reviewLoop_index (calls : Nat → AgentCall) :
    ∀ (attempts idx : Nat) (fs : OrchFs) (cost : ℚ),
      ((reviewLoop calls idx attempts fs cost).2.1).index = fs.index := by
  intro attempts
  induction attempts with
  | zero => intro idx fs cost; rfl
  | succ n ih =>
    intro idx fs cost
    simp only [reviewLoop]
    cases (calls idx).output with
    | none => exact ih (idx + 1) _ _
    | some out =>
      by_cases hdone : containsSub "REVIEW_PASSED".data out = true
      · simp [hdone]
      · simp only [Bool.not_eq_true] at hdone
        simp [hdone]
        exact ih (idx + 1) _ _

/-- Restoring a snapshot that agrees with the git index (or is untracked)
puts the snapshot bytes back on disk. -/
theorem restoreBackup_file (b : Str) (fs : OrchFs)
    (h : fs.index = none ∨ fs.index = some b) :
    (restoreBackup (some b) fs).file = some b := by
  rcases h with h | h <;> simp [restoreBackup, h]

/-- C1 amended: when tasks.json existed before the invocation and was either
untracked or byte-identical to its git-index version, every Orchestrator
invocation that returns success=false leaves tasks.json byte-identical to its
pre-invocation contents.  (Both conditions are needed: `_restore_backup` is a
no-op for an absent file, and its `git checkout tasks.json` reinstates the
index version over the freshly written backup.) -/
theorem c1_amended (calls : Nat → AgentCall) (fs0 : OrchFs) (b : Str)
    (hfile : fs0.file = some b) (hidx : fs0.index = none ∨ fs0.index = some b) :
    (orchestrate calls fs0).1.success = false →
    (orchestrate calls fs0).2.file = some b := by
  have stage2 : ∀ (fs2 : OrchFs) (cost2 : ℚ),
      fs2.index = none ∨ fs2.index = some b →
      (orchestrateValidateStage (some b) fs2 cost2).1.success = false →
      (orchestrateValidateStage (some b) fs2 cost2).2.file = some b := by
    intro fs2 cost2 hidx2 hfail
    unfold orchestrateValidateStage at hfail ⊢
    cases hval : validateTasks fs2.file with
    | false => exact restoreBackup_file b fs2 hidx2
    | true =>
      rw [hval] at hfail
      rcases hc : commitTasks fs2 with ⟨committed, fs3⟩
      rw [hc] at hfail
      cases committed <;> simp at hfail
  have stage1 : ∀ (nextIdx : Nat) (fs1 : OrchFs) (cost1 : ℚ),
      fs1.index = none ∨ fs1.index = some b →
      (orchestrateReviewStage calls (some b) nextIdx fs1 cost1).1.success = false →
      (orchestrateReviewStage calls (some b) nextIdx fs1 cost1).2.file = some b := by
    intro nextIdx fs1 cost1 hidx1 hfail
    unfold orchestrateReviewStage at hfail ⊢
    rcases hrev : reviewLoop calls nextIdx maxReviewAttempts fs1 cost1 with
      ⟨reviewOk, fs2, nextIdx2, cost2⟩
    rw [hrev] at hfail
    have hI2 : fs2.index = fs1.index := by
      have h0 := reviewLoop_index calls maxReviewAttempts nextIdx fs1 cost1
      rw [hrev] at h0
      simpa using h0
    have hidx2 : fs2.index = none ∨ fs2.index = some b := by rw [hI2]; exact hidx1
    cases reviewOk with
    | false => exact restoreBackup_file b fs2 hidx2
    | true => exact stage2 fs2 cost2 hidx2 hfail
  intro hfail
  unfold orchestrate at hfail ⊢
  unfold backupTasks at hfail ⊢
  rw [hfile] at hfail ⊢
  rcases horch : orchLoop calls 0 maxOrchestrationAttempts fs0 0 with
    ⟨orchOut, fs1, nextIdx, cost1⟩
  rw [horch] at hfail
  have hI : fs1.index = fs0.index := by
    have h0 := orchLoop_index calls maxOrchestrationAttempts 0 fs0 0
    rw [horch] at h0
    simpa using h0
  have hidx1 : fs1.index = none ∨ fs1.index = some b := by rw [hI]; exact hidx
  cases orchOut with
  | none => exact restoreBackup_file b fs1 hidx1
  | some out => exact stage1 nextIdx fs1 cost1 hidx1 hfail

/-- C1 amended, witness: a concrete failing run (no ORCHESTRATION_DONE ever
appears) over an existing, untracked tasks.json leaves its bytes intact. -/
theorem c1_amended_witness :
    (orchestrate (fun _ => ⟨fun _ => some "[2]".data, none, 0⟩)
        ⟨some "[1]".data, none⟩).1.success = false ∧
    (orchestrate (fun _ => ⟨fun _ => some "[2]".data, none, 0⟩)
        ⟨some "[1]".data, none⟩).2.file = some "[1]".data :=
  ⟨rfl, c1_amended (fun _ => ⟨fun _ => some "[2]".data, none, 0⟩)
    ⟨some "[1]".data, none⟩ "[1]".data rfl (Or.inl rfl) rfl⟩

/-- C1 counterexample: tasks.json did not exist before the invocation, the
agent creates it during a failing orchestration, and `_restore_backup` (a
no-op for a `None` backup) leaves the created file on disk: the post-state is
not byte-identical to the pre-state. -/
theorem c1_counterexample :
    (orchestrate (fun _ => ⟨fun _ => some "[]".data, none, 0⟩)
        ⟨none, none⟩).1.success = false ∧
    (orchestrate (fun _ => ⟨fun _ => some "[]".data, none, 0⟩)
        ⟨none, none⟩).2.file = some "[]".data ∧
    some "[]".data ≠ (none : Option Str) :=
  ⟨rfl, rfl, by simp⟩

/-- C4 counterexample: a task carrying notes completes through the
validator's short-circuit path (no uncommitted changes): the validator
reports success without clearing notes and `mark_completed` does not touch
them, so the completed task's notes are not null. -/
theorem c4_counterexample :
    (finalizeCleanExit { changedFiles := [] }
        { id := "1".data, description := "D".data, notes := some "prior".data }).2 = true ∧
    (finalizeCleanExit { changedFiles := [] }
        { id := "1".data, description := "D".data, notes := some "prior".data }).1.status =
      statusCompleted ∧
    (finalizeCleanExit { changedFiles := [] }
        { id := "1".data, description := "D".data, notes := some "prior".data }).1.notes =
      some "prior".data ∧
    some "prior".data ≠ (none : Option Str) :=
  ⟨rfl, rfl, rfl, by simp⟩

/-- C4 amended: when uncommitted changes exist, every validator run that
reports success clears the task's notes, and the subsequent completion keeps
them null; the short-circuit path (no uncommitted changes) instead leaves
notes unchanged. -/
theorem c4_amended (env : ValidatorEnv) (t : Task)
    (hch : env.changedFiles ≠ [])
    (hsucc : (validate_and_commit env t).1.success = true) :
    (markCompleted (validate_and_commit env t).2).notes = none := by
  unfold validate_and_commit at hsucc ⊢
  have hne : env.changedFiles.isEmpty = false := by
    cases h : env.changedFiles with
    | nil => exact absurd h hch
    | cons a l => rfl
  rw [hne] at hsucc ⊢
  simp only [Bool.false_eq_true, if_false] at hsucc ⊢
  split_ifs at hsucc ⊢ with h1 h2
  cases hcm : env.commitMessage with
  | none => rw [hcm] at hsucc; simp at hsucc
  | some m => rfl

/-- C4 amended, witness: with one changed file and a generated commit
message, completion clears the notes. -/
theorem c4_amended_witness :
    (validate_and_commit { changedFiles := ["a.txt".data], commitMessage := some "msg".data }
        { id := "1".data, description := "D".data, notes := some "prior".data }).1.success =
      true ∧
    (markCompleted (validate_and_commit
        { changedFiles := ["a.txt".data], commitMessage := some "msg".data }
        { id := "1".data, description := "D".data, notes := some "prior".data }).2).notes =
      none :=
  ⟨rfl, c4_amended
    { changedFiles := ["a.txt".data], commitMessage := some "msg".data }
    { id := "1".data, description := "D".data, notes := some "prior".data }
    (by simp) rfl⟩

/-- When the per-line loop reaches end of file without an exception, it
returns exactly the decodable display events of its input lines. -/
theorem processRegionLines_complete :
    ∀ lines : List Str, (processRegionLines lines).2 = true →
      (processRegionLines lines).1 = displayEventsOfLines lines := by
  intro lines
  induction lines with
  | nil => intro _; rfl
  | cons line rest ih =>
    intro hflag
    simp only [processRegionLines, displayEventsOfLines, List.filterMap_cons] at hflag ⊢
    cases hd : decodedLine line with
    | none =>
      simp only [hd] at hflag ⊢
      exact ih hflag
    | some j =>
      simp only [hd] at hflag ⊢
      cases hpe : parseEventForDisplay j with
      | error e =>
        simp only [hpe] at hflag
        simp at hflag
      | ok oe =>
        simp only [hpe] at hflag ⊢
        cases oe with
        | none => exact ih hflag
        | some e =>
          rcases hrest : processRegionLines rest with ⟨evs, flag⟩
          simp only [hrest] at hflag ⊢
          subst hflag
          have := ih (by rw [hrest])
          rw [hrest] at this
          simpa using this

/-- C10 amended: when every line of the unread region either fails JSON
decoding or decodes to an event that processes without an exception,
`read_new_events` advances the offset to end of file, a second call with no
intervening writes returns an empty list, and the two calls together return
exactly the display events decodable from the bytes after the previous read
position.  (A decoded line whose processing raises — e.g. a valid-JSON
non-object line — leaves the offset unchanged instead.) -/
theorem c10_amended (file : Option Str) (pos : Nat)
    (h : (processRegionLines (splitNl ((file.getD []).drop pos))).2 = true) :
    (read_new_events file (read_new_events file pos).2).1 = [] ∧
    (read_new_events file pos).1 ++ (read_new_events file (read_new_events file pos).2).1 =
      decodableDisplayEvents ((file.getD []).drop pos) := by
  cases file with
  | none =>
    refine ⟨rfl, ?_⟩
    show ([] : List DispEvent) ++ [] = decodableDisplayEvents (List.drop pos [])
    rw [List.drop_nil]
    rfl
  | some content =>
    simp only [Option.getD_some] at h ⊢
    rcases hp : processRegionLines (splitNl (content.drop pos)) with ⟨evs, flag⟩
    have hflag : flag = true := by
      rw [hp] at h
      exact h
    subst hflag
    have hr1 : read_new_events (some content) pos = (evs, max pos content.length) := by
      simp only [read_new_events, hp]
    have hdrop : content.drop (max pos content.length) = [] :=
      List.drop_eq_nil_of_le (le_max_right _ _)
    have hr2 : read_new_events (some content) (max pos content.length) =
        ([], max (max pos content.length) content.length) := by
      simp only [read_new_events, hdrop]
      rfl
    have hevs : evs = decodableDisplayEvents (content.drop pos) := by
      have hcomp := processRegionLines_complete (splitNl (content.drop pos)) (by rw [hp])
      rw [hp] at hcomp
      exact hcomp
    constructor
    · rw [hr1]
      show (read_new_events (some content) (max pos content.length)).1 = []
      rw [hr2]
    · rw [hr1]
      show evs ++ (read_new_events (some content) (max pos content.length)).1 =
        decodableDisplayEvents (List.drop pos content)
      rw [hr2]
      simpa using hevs

/-- C10 amended, witness: a log holding one complete result event advances
the offset; the second read is empty and the reads concatenate to the
decodable events of the region. -/
theorem c10_amended_witness :
    (processRegionLines (splitNl
      (((some "\x7b\"type\": \"result\", \"is_error\": false, \"result\": \"done\"\x7d".data).getD
        []).drop 0))).2 = true ∧
    (read_new_events (some "\x7b\"type\": \"result\", \"is_error\": false, \"result\": \"done\"\x7d".data)
      (read_new_events
        (some "\x7b\"type\": \"result\", \"is_error\": false, \"result\": \"done\"\x7d".data) 0).2).1 = [] :=
  ⟨rfl,
    (c10_amended (some "\x7b\"type\": \"result\", \"is_error\": false, \"result\": \"done\"\x7d".data)
      0 rfl).1⟩

/-- C10 counterexample: a log whose second line is the valid-JSON non-object
`123` makes `_parse_event_for_display` raise AttributeError; the swallowed
exception leaves the read offset at 0, so a second call with no intervening
writes re-returns the same one-element event list instead of an empty
list. -/
theorem c10_counterexample :
    (read_new_events
        (some "\x7b\"type\": \"result\", \"is_error\": false, \"result\": \"ok\"\x7d\n123".data)
        (read_new_events
          (some "\x7b\"type\": \"result\", \"is_error\": false, \"result\": \"ok\"\x7d\n123".data)
          0).2).1 =
      (read_new_events
        (some "\x7b\"type\": \"result\", \"is_error\": false, \"result\": \"ok\"\x7d\n123".data)
        0).1 ∧
    (read_new_events
        (some "\x7b\"type\": \"result\", \"is_error\": false, \"result\": \"ok\"\x7d\n123".data)
        0).1.length = 1 ∧
    (read_new_events
        (some "\x7b\"type\": \"result\", \"is_error\": false, \"result\": \"ok\"\x7d\n123".data)
        0).2 = 0 :=
  ⟨rfl, rfl, rfl⟩

/-- Lexicographic integer-list comparison is reflexive. -/
theorem intListLe_refl : ∀ l : List Int, intListLe l l = true := by
  intro l
  induction l with
  | nil => rfl
  | cons x xs ih => simpa [intListLe, lt_irrefl] using ih

/-- Lexicographic integer-list comparison is total. -/
theorem intListLe_total : ∀ a b : List Int, intListLe a b = true ∨ intListLe b a = true := by
  intro a
  induction a with
  | nil => intro b; left; rfl
  | cons x xs ih =>
    intro b
    cases b with
    | nil => right; rfl
    | cons y ys =>
      simp only [intListLe]
      rcases lt_trichotomy x y with h | h | h
      · left; simp [h]
      · subst h
        rcases ih ys with hy | hy
        · left; simpa [lt_irrefl] using hy
        · right; simpa [lt_irrefl] using hy
      · right; simp [h, not_lt_of_gt h]

/-- Lexicographic integer-list comparison is transitive. -/
theorem intListLe_trans :
    ∀ a b c : List Int, intListLe a b = true → intListLe b c = true →
      intListLe a c = true := by
  intro a
  induction a with
  | nil => intro b c _ _; rfl
  | cons x xs ih =>
    intro b c hab hbc
    cases b with
    | nil => simp [intListLe] at hab
    | cons y ys =>
      cases c with
      | nil => simp [intListLe] at hbc
      | cons z zs =>
        simp only [intListLe] at hab hbc ⊢
        split_ifs at hab hbc ⊢ <;>
          first
            | rfl
            | omega
            | (exact ih ys zs hab hbc)

/-- Membership through stable insertion. -/
theorem mem_insortBy (le : α → α → Bool) (x : α) :
    ∀ (l : List α) (a : α), a ∈ insortBy le x l ↔ a = x ∨ a ∈ l := by
  intro l
  induction l with
  | nil => intro a; simp [insortBy]
  | cons y ys ih =>
    intro a
    simp only [insortBy]
    by_cases h : le x y = true
    · simp [h, List.mem_cons]
    · simp [h, List.mem_cons, ih]
      tauto

/-- Membership through the stable sort. -/
theorem mem_sortBy (le : α → α → Bool) :
    ∀ (l : List α) (a : α), a ∈ sortBy le l ↔ a ∈ l := by
  intro l
  induction l with
  | nil => intro a; simp [sortBy]
  | cons x xs ih =>
    intro a
    simp only [sortBy]
    rw [mem_insortBy]
    simp [ih, List.mem_cons]

/-- Insertion preserves sortedness for a total, transitive comparison. -/
theorem pairwise_insortBy (le : α → α → Bool)
    (htot : ∀ a b, le a b = true ∨ le b a = true)
    (htrans : ∀ a b c, le a b = true → le b c = true → le a c = true) (x : α) :
    ∀ l : List α, l.Pairwise (fun a b => le a b = true) →
      (insortBy le x l).Pairwise (fun a b => le a b = true) := by
  intro l
  induction l with
  | nil => intro _; simp [insortBy]
  | cons y ys ih =>
    intro hp
    rcases List.pairwise_cons.mp hp with ⟨hy, hys⟩
    simp only [insortBy]
    by_cases h : le x y = true
    · simp only [h, if_true]
      refine List.pairwise_cons.mpr ⟨?_, hp⟩
      intro b hb
      rcases List.mem_cons.mp hb with rfl | hb
      · exact h
      · exact htrans x y b h (hy b hb)
    · simp only [h, if_false]
      refine List.pairwise_cons.mpr ⟨?_, ih hys⟩
      intro b hb
      rcases (mem_insortBy le x ys b).mp hb with hbx | hb
      · rw [hbx]
        rcases htot x y with hxy | hyx
        · exact absurd hxy h
        · exact hyx
      · exact hy b hb

/-- The stable sort output is sorted for a total, transitive comparison. -/
theorem pairwise_sortBy (le : α → α → Bool)
    (htot : ∀ a b, le a b = true ∨ le b a = true)
    (htrans : ∀ a b c, le a b = true → le b c = true → le a c = true) :
    ∀ l : List α, (sortBy le l).Pairwise (fun a b => le a b = true) := by
  intro l
  induction l with
  | nil => simp [sortBy]
  | cons x xs ih => exact pairwise_insortBy le htot htrans x (sortBy le xs) ih

/-- The head of the sorted list is a lower bound of the input. -/
theorem sortBy_head_le (le : α → α → Bool)
    (htot : ∀ a b, le a b = true ∨ le b a = true)
    (htrans : ∀ a b c, le a b = true → le b c = true → le a c = true)
    (hrefl : ∀ a, le a a = true)
    (l : List α) (h : α) (t : List α) (hsort : sortBy le l = h :: t) :
    ∀ x ∈ l, le h x = true := by
  intro x hx
  have hmem : x ∈ sortBy le l := (mem_sortBy le l x).mpr hx
  rw [hsort] at hmem
  rcases List.mem_cons.mp hmem with hxh | hmem
  · rw [hxh]
    exact hrefl h
  · have hp := pairwise_sortBy le htot htrans l
    rw [hsort] at hp
    exact (List.pairwise_cons.mp hp).1 x hmem

/-- ASCII digits are neither Python whitespace nor sign characters. -/
theorem isAsciiDigit_props (c : Char) (h : isAsciiDigit c = true) :
    pyIsSpace c = false ∧ c ≠ '-' ∧ c ≠ '+' := by
  have hn : 48 ≤ c.toNat ∧ c.toNat ≤ 57 := by simpa [isAsciiDigit] using h
  refine ⟨?_, ?_, ?_⟩
  · simp only [pyIsSpace, Bool.or_eq_false_iff, beq_eq_false_iff_ne]
    refine ⟨⟨⟨⟨⟨?_, ?_⟩, ?_⟩, ?_⟩, ?_⟩, ?_⟩ <;> (rintro rfl; revert hn; decide)
  · rintro rfl; revert hn; decide
  · rintro rfl; revert hn; decide

/-- Stripping whitespace from an all-digit string is the identity. -/
theorem pyStrip_of_digits (s : Str) (h : s.all isAsciiDigit = true) : pyStrip s = s := by
  have hmem : ∀ c ∈ s, isAsciiDigit c = true := by
    intro c hc
    exact List.all_eq_true.mp h c hc
  have hdw : ∀ l : Str, (∀ c ∈ l, isAsciiDigit c = true) → l.dropWhile pyIsSpace = l := by
    intro l hl
    cases l with
    | nil => rfl
    | cons c cs =>
      have hc := (isAsciiDigit_props c (hl c (List.mem_cons_self c cs))).1
      simp [List.dropWhile_cons, hc]
  unfold pyStrip
  rw [hdw s hmem]
  rw [hdw s.reverse (by intro c hc; exact hmem c (List.mem_reverse.mp hc))]
  exact List.reverse_reverse s

/-- Python `int` on a non-empty all-digit string returns its decimal value. -/
theorem pyInt?_digits (s : Str) (hne : s ≠ []) (hdig : s.all isAsciiDigit = true) :
    pyInt? s = some (digitsVal s : Int) := by
  unfold pyInt?
  rw [pyStrip_of_digits s hdig]
  cases s with
  | nil => exact absurd rfl hne
  | cons c cs =>
    have hc : isAsciiDigit c = true := by
      exact List.all_eq_true.mp hdig c (List.mem_cons_self c cs)
    obtain ⟨_, hminus, hplus⟩ := isAsciiDigit_props c hc
    simp [hminus, hplus, hdig]

/-- The option traversal over a list where every element maps to `some`. -/
theorem mapOption?_of_forall {α β : Type} (f : α → Option β) (g : α → β) :
    ∀ l : List α, (∀ a ∈ l, f a = some (g a)) → mapOption? f l = some (l.map g) := by
  intro l
  induction l with
  | nil => intro _; rfl
  | cons a as ih =>
    intro h
    have ha := h a (List.mem_cons_self a as)
    have hrest := ih fun b hb => h b (List.mem_cons_of_mem a hb)
    simp [mapOption?, ha, hrest]

/-- On a valid dotted-decimal task id, `parse_task_id` returns exactly the
decimal values of the id's segments. -/
theorem parse_task_id_eq (tid : Str) (h : validTaskId tid) :
    parse_task_id tid = idIntSegments tid := by
  unfold parse_task_id idIntSegments
  have hall : ∀ seg ∈ splitOnChar '.' tid, pyInt? seg = some ((digitsVal seg : Int)) := by
    intro seg hseg
    obtain ⟨hne, hdig⟩ := h seg hseg
    exact pyInt?_digits seg hne hdig
  rw [mapOption?_of_forall pyInt? (fun seg => (digitsVal seg : Int)) _ hall]

/-- C6: over a task list with dotted-decimal ids, `get_next_task` returns
null exactly when no task is pending or in progress, and otherwise returns
an eligible task of the list whose integer-segment sequence is
lexicographically least among all eligible tasks. -/
theorem c6_get_next_task (tasks : List Task)
    (hvalid : ∀ t ∈ tasks, validTaskId t.id) :
    (get_next_task tasks = none ↔ ∀ t ∈ tasks, eligibleStatus t = false) ∧
    (∀ t, get_next_task tasks = some t →
      t ∈ tasks ∧ eligibleStatus t = true ∧
      ∀ u ∈ tasks, eligibleStatus u = true →
        intListLe (idIntSegments t.id) (idIntSegments u.id) = true) := by
  have htot : ∀ a b : Task, taskKeyLe a b = true ∨ taskKeyLe b a = true := by
    intro a b
    exact intListLe_total _ _
  have htrans : ∀ a b c : Task,
      taskKeyLe a b = true → taskKeyLe b c = true → taskKeyLe a c = true := by
    intro a b c
    exact intListLe_trans _ _ _
  have hrefl : ∀ a : Task, taskKeyLe a a = true := fun a => intListLe_refl _
  constructor
  · constructor
    · intro hnone t ht
      by_contra helig
      have helig' : eligibleStatus t = true := by
        cases h : eligibleStatus t with
        | true => rfl
        | false => exact absurd h helig
      have htmem : t ∈ tasks.filter eligibleStatus := List.mem_filter.mpr ⟨ht, helig'⟩
      have hne : (tasks.filter eligibleStatus).isEmpty = false := by
        cases hfe : tasks.filter eligibleStatus with
        | nil => rw [hfe] at htmem; exact absurd htmem (List.not_mem_nil t)
        | cons a l => rfl
      have hsmem : t ∈ sortBy taskKeyLe (tasks.filter eligibleStatus) :=
        (mem_sortBy taskKeyLe _ t).mpr htmem
      simp only [get_next_task] at hnone
      rw [hne] at hnone
      simp only [Bool.false_eq_true, if_false] at hnone
      cases hs : sortBy taskKeyLe (tasks.filter eligibleStatus) with
      | nil => rw [hs] at hsmem; exact absurd hsmem (List.not_mem_nil t)
      | cons a l => rw [hs] at hnone; simp at hnone
    · intro hall
      have hfe : tasks.filter eligibleStatus = [] := by
        apply List.filter_eq_nil_iff.mpr
        intro a ha
        simp [hall a ha]
      simp only [get_next_task]
      rw [hfe]
      rfl
  · intro t hsome
    unfold get_next_task at hsome
    cases hie : (tasks.filter eligibleStatus).isEmpty with
    | true => rw [hie] at hsome; simp at hsome
    | false =>
      rw [hie] at hsome
      simp only [Bool.false_eq_true, if_false] at hsome
      cases hs : sortBy taskKeyLe (tasks.filter eligibleStatus) with
      | nil => rw [hs] at hsome; simp at hsome
      | cons h0 tl =>
        rw [hs] at hsome
        simp only [List.head?_cons, Option.some.injEq] at hsome
        subst hsome
        have htmem : h0 ∈ tasks.filter eligibleStatus := by
          have hsm : h0 ∈ sortBy taskKeyLe (tasks.filter eligibleStatus) := by
            rw [hs]; exact List.mem_cons_self h0 tl
          exact (mem_sortBy taskKeyLe _ h0).mp hsm
        obtain ⟨htin, htelig⟩ := List.mem_filter.mp htmem
        refine ⟨htin, htelig, ?_⟩
        intro u hu huelig
        have humem : u ∈ tasks.filter eligibleStatus := List.mem_filter.mpr ⟨hu, huelig⟩
        have hle : taskKeyLe h0 u = true :=
          sortBy_head_le taskKeyLe htot htrans hrefl _ h0 tl hs u humem
        unfold taskKeyLe at hle
        rw [parse_task_id_eq h0.id (hvalid h0 htin), parse_task_id_eq u.id (hvalid u hu)] at hle
        exact hle

/-- C6, witness: on a concrete valid task list the next task is the
eligible task with the least dotted-decimal id. -/
theorem c6_get_next_task_witness :
    (∀ t ∈ ([{ id := "2".data, description := "b".data },
             { id := "1.10".data, description := "a".data },
             { id := "1.2".data, description := "c".data, status := statusCompleted }] :
        List Task), validTaskId t.id) ∧
    ((get_next_task [{ id := "2".data, description := "b".data },
             { id := "1.10".data, description := "a".data },
             { id := "1.2".data, description := "c".data, status := statusCompleted }] = none ↔
        ∀ t ∈ ([{ id := "2".data, description := "b".data },
             { id := "1.10".data, description := "a".data },
             { id := "1.2".data, description := "c".data, status := statusCompleted }] :
          List Task), eligibleStatus t = false) ∧
      (∀ t, get_next_task [{ id := "2".data, description := "b".data },
             { id := "1.10".data, description := "a".data },
             { id := "1.2".data, description := "c".data, status := statusCompleted }] = some t →
        t ∈ ([{ id := "2".data, description := "b".data },
             { id := "1.10".data, description := "a".data },
             { id := "1.2".data, description := "c".data, status := statusCompleted }] :
          List Task) ∧ eligibleStatus t = true ∧
        ∀ u ∈ ([{ id := "2".data, description := "b".data },
             { id := "1.10".data, description := "a".data },
             { id := "1.2".data, description := "c".data, status := statusCompleted }] :
          List Task), eligibleStatus u = true →
          intListLe (idIntSegments t.id) (idIntSegments u.id) = true)) ∧
    (get_next_task [{ id := "2".data, description := "b".data },
             { id := "1.10".data, description := "a".data },
             { id := "1.2".data, description := "c".data, status := statusCompleted }]).map
        (fun t => t.id) = some "1.10".data :=
  ⟨by decide,
   c6_get_next_task _ (by decide),
   rfl⟩

/-- Numeric coercion agrees with the claim-side numeric reading. -/
theorem asNumE_qOfJson (x : Json) (c : ℚ) (h : asNumE x = Except.ok c) :
    qOfJson x = c := by
  cases x <;> simp [asNumE, qOfJson] at h ⊢ <;> simp [h]

/-- One processable, non-positively-priced event advances the estimator's
running maxima exactly by its claim-side usage pair. -/
theorem estimateStep_ok (j : Json) (hproc : eventProcessable j = true)
    (hres : ∀ cj, resultCostOf j = some cj → ∀ c, asNumE cj = Except.ok c → c ≤ 0)
    (i o : ℚ) :
    estimateStep i o j =
      (match specUsagePair j with
       | some (p, q) => Except.ok (.inr (max i p, max o q))
       | none => Except.ok (.inr (i, o))) := by
  cases j with
  | obj kvs =>
    by_cases h1 : strOfJson (jsonGetD kvs "type".data (Json.str [])) = some ("result".data)
    · have hrc : resultCostOf (Json.obj kvs) =
          some (jsonGetD kvs "total_cost_usd".data (Json.num 0)) := by
        simp [resultCostOf, h1]
      cases hcost : asNumE (jsonGetD kvs "total_cost_usd".data (Json.num 0)) with
      | error e => simp [eventProcessable, h1, hcost] at hproc
      | ok c =>
        have hc0 : c ≤ 0 := hres _ hrc c hcost
        have hne : ¬ (strOfJson (jsonGetD kvs "type".data (Json.str [])) =
            some ("assistant".data)) := by
          rw [h1]
          intro hcon
          exact (by decide : ("result".data : Str) ≠ "assistant".data) (Option.some.inj hcon)
        simp [estimateStep, specUsagePair, h1, hne, hcost]
        show (if 0 < c then Except.ok (Sum.inl c) else Except.ok (Sum.inr (i, o))) =
          Except.ok (Sum.inr (i, o))
        rw [if_neg (not_lt.mpr hc0)]
    · by_cases h2 : strOfJson (jsonGetD kvs "type".data (Json.str [])) = some ("assistant".data)
      · cases hmsg : jsonGetD kvs "message".data (Json.obj []) with
        | obj mkvs =>
          cases husage : jsonGetD mkvs "usage".data (Json.obj []) with
          | obj ukvs =>
            cases ukvs with
            | nil => simp [estimateStep, specUsagePair, h1, h2, hmsg, husage]
            | cons u us =>
              cases hiv : asNumE (jsonGetD (u :: us) "input_tokens".data (Json.num 0)) with
              | error e => simp [eventProcessable, h1, h2, hmsg, husage, hiv] at hproc
              | ok iv =>
                cases hov : asNumE (jsonGetD (u :: us) "output_tokens".data (Json.num 0)) with
                | error e => simp [eventProcessable, h1, h2, hmsg, husage, hiv, hov] at hproc
                | ok ov =>
                  have hivq := asNumE_qOfJson _ _ hiv
                  have hovq := asNumE_qOfJson _ _ hov
                  simp [estimateStep, specUsagePair, h1, h2, hmsg, husage, hiv, hov,
                    hivq, hovq]
                  rfl
          | null => simp [estimateStep, specUsagePair, h1, h2, hmsg, husage, pyTruthy]
          | bool b =>
            cases b with
            | false => simp [estimateStep, specUsagePair, h1, h2, hmsg, husage, pyTruthy]
            | true => simp [eventProcessable, h1, h2, hmsg, husage, pyTruthy] at hproc
          | num q =>
            by_cases hq : q = 0
            · simp [estimateStep, specUsagePair, h1, h2, hmsg, husage, pyTruthy, hq]
            · simp [eventProcessable, h1, h2, hmsg, husage, pyTruthy, hq] at hproc
          | str s =>
            cases s with
            | nil => simp [estimateStep, specUsagePair, h1, h2, hmsg, husage, pyTruthy]
            | cons c cs => simp [eventProcessable, h1, h2, hmsg, husage, pyTruthy] at hproc
          | arr xs =>
            cases xs with
            | nil => simp [estimateStep, specUsagePair, h1, h2, hmsg, husage, pyTruthy]
            | cons x xs' => simp [eventProcessable, h1, h2, hmsg, husage, pyTruthy] at hproc
        | null => simp [eventProcessable, h1, h2, hmsg] at hproc
        | bool b => simp [eventProcessable, h1, h2, hmsg] at hproc
        | num q => simp [eventProcessable, h1, h2, hmsg] at hproc
        | str s => simp [eventProcessable, h1, h2, hmsg] at hproc
        | arr xs => simp [eventProcessable, h1, h2, hmsg] at hproc
      · simp [estimateStep, specUsagePair, h1, h2]
  | null => simp [eventProcessable] at hproc
  | bool b => simp [eventProcessable] at hproc
  | num q => simp [eventProcessable] at hproc
  | str s => simp [eventProcessable] at hproc
  | arr xs => simp [eventProcessable] at hproc

/-- Folding a maximum over a shifted start commutes with taking the maximum
afterwards. -/
theorem foldrMax_shift (f : ℚ × ℚ → ℚ) :
    ∀ (l : List (ℚ × ℚ)) (a b : ℚ),
      l.foldr (fun p m => max (f p) m) (max a b) =
        max a (l.foldr (fun p m => max (f p) m) b) := by
  intro l
  induction l with
  | nil => intro a b; rfl
  | cons x xs ih =>
    intro a b
    simp only [List.foldr_cons, ih]
    rw [max_left_comm]

/-- The folded maxima start at zero and stay non-negative. -/
theorem foldrMax_nonneg (f : ℚ × ℚ → ℚ) :
    ∀ l : List (ℚ × ℚ), 0 ≤ l.foldr (fun p m => max (f p) m) 0 := by
  intro l
  induction l with
  | nil => exact le_refl 0
  | cons x xs ih => exact le_trans ih (le_max_right _ _)

/-- A shorter log stays estimable. -/
theorem estimableLog_tail (line : Str) (rest : List Str)
    (h : estimableLog (line :: rest)) : estimableLog rest := by
  intro j hj
  apply h j
  unfold decodedEvents at hj ⊢
  rw [List.filterMap_cons]
  cases decodedLine line with
  | none => exact hj
  | some j0 => exact List.mem_cons_of_mem j0 hj

/-- Closed form of the estimator loop over an estimable log: the final value
prices the running maxima folded with the claim-side usage pairs. -/
theorem estimateGo_spec :
    ∀ (lines : List Str), estimableLog lines → ∀ (i o : ℚ),
      estimateGo lines i o =
        (if 0 < ((decodedEvents lines).filterMap specUsagePair).foldr
              (fun p m => max p.1 m) i ∨
            0 < ((decodedEvents lines).filterMap specUsagePair).foldr
              (fun p m => max p.2 m) o then
          (((decodedEvents lines).filterMap specUsagePair).foldr (fun p m => max p.1 m) i * 3 +
            ((decodedEvents lines).filterMap specUsagePair).foldr (fun p m => max p.2 m) o * 15) /
            1000000
        else 0) := by
  intro lines
  induction lines with
  | nil => intro _ i o; rfl
  | cons line rest ih =>
    intro h i o
    have htail := estimableLog_tail line rest h
    simp only [estimateGo, decodedEvents, List.filterMap_cons]
    cases hd : decodedLine line with
    | none => exact ih htail i o
    | some j =>
      have hj : j ∈ decodedEvents (line :: rest) := by
        unfold decodedEvents
        rw [List.filterMap_cons, hd]
        exact List.mem_cons_self j _
      obtain ⟨hproc, hres⟩ := h j hj
      simp only []
      rw [estimateStep_ok j hproc hres i o]
      cases hsp : specUsagePair j with
      | none =>
        simp only [List.filterMap_cons, hsp]
        exact ih htail i o
      | some pq =>
        rcases pq with ⟨p, q⟩
        simp only [List.filterMap_cons, hsp, List.foldr_cons]
        rw [ih htail (max i p) (max o q)]
        rw [show ∀ prs : List (ℚ × ℚ), prs.foldr (fun p m => max p.1 m) (max i p) =
            max p (prs.foldr (fun p m => max p.1 m) i) from fun prs => by
          rw [max_comm i p]; exact foldrMax_shift (fun p => p.1) prs p i]
        rw [show ∀ prs : List (ℚ × ℚ), prs.foldr (fun p m => max p.2 m) (max o q) =
            max q (prs.foldr (fun p m => max p.2 m) o) from fun prs => by
          rw [max_comm o q]; exact foldrMax_shift (fun p => p.2) prs q o]
        rfl

/-- The Boolean estimability check implies the estimable-log hypothesis. -/
theorem estimableLog_of_B (lines : List Str) (h : estimableLogB lines = true) :
    estimableLog lines := by
  unfold estimableLogB at h
  intro j hj
  have hj2 := List.all_eq_true.mp h j hj
  rw [Bool.and_eq_true] at hj2
  refine ⟨hj2.1, ?_⟩
  intro cj hcj c hc
  have h2 := hj2.2
  simp only [hcj] at h2
  simp only [hc] at h2
  exact of_decide_eq_true h2

/-- A processable result event carries a numeric cost field. -/
theorem resultCost_asNum (j cj : Json)
    (hproc : eventProcessable j = true)
    (hres : resultCostOf j = some cj) :
    ∃ c, asNumE cj = Except.ok c := by
  cases j with
  | null => simp [resultCostOf] at hres
  | bool b => simp [resultCostOf] at hres
  | num q => simp [resultCostOf] at hres
  | str s => simp [resultCostOf] at hres
  | arr xs => simp [resultCostOf] at hres
  | obj kvs =>
    simp only [resultCostOf] at hres
    by_cases hty : strOfJson (jsonGetD kvs ("type".data) (Json.str [])) = some ("result".data)
    · rw [if_pos hty] at hres
      injection hres with h
      subst h
      simp only [eventProcessable] at hproc
      rw [if_pos hty] at hproc
      cases han : asNumE (jsonGetD kvs ("total_cost_usd".data) (Json.num 0)) with
      | ok c => exact ⟨c, rfl⟩
      | error u => simp [han] at hproc
    · rw [if_neg hty] at hres
      simp at hres

/-- One `_parse_event` step either keeps the cost field or overwrites it with
the result event's cost field. -/
theorem parseLogEvent_cost_eq (j : Json) (st st2 : WorkerLogS)
    (hok : parseLogEvent j st = Except.ok st2) :
    st2.cost_usd = st.cost_usd ∨ resultCostOf j = some st2.cost_usd := by
  cases j with
  | null => simp [parseLogEvent] at hok
  | bool b => simp [parseLogEvent] at hok
  | num q => simp [parseLogEvent] at hok
  | str s => simp [parseLogEvent] at hok
  | arr xs => simp [parseLogEvent] at hok
  | obj kvs =>
    simp only [parseLogEvent] at hok
    by_cases h1 : strOfJson (jsonGetD kvs ("type".data) (Json.str [])) = some ("system".data)
    · rw [if_pos h1] at hok
      by_cases h2 : jsonEqStr (jsonGetD kvs ("subtype".data) (Json.str [])) ("init".data) = true
      · rw [if_pos h2] at hok
        injection hok with h
        subst h
        exact Or.inl rfl
      · rw [if_neg h2] at hok
        injection hok with h
        subst h
        exact Or.inl rfl
    · rw [if_neg h1] at hok
      by_cases h2 : strOfJson (jsonGetD kvs ("type".data) (Json.str [])) = some ("assistant".data)
      · rw [if_pos h2] at hok
        cases hm : jsonGetD kvs ("message".data) (Json.obj []) with
        | null => simp [hm] at hok
        | bool b => simp [hm] at hok
        | num q => simp [hm] at hok
        | str s => simp [hm] at hok
        | arr xs => simp [hm] at hok
        | obj mkvs =>
          simp only [hm] at hok
          cases hib : iterBlocksE (jsonGetD mkvs ("content".data) (Json.arr [])) with
          | error u => simp [hib] at hok
          | ok blocks =>
            simp only [hib] at hok
            cases hpb : parseEventBlocksOk blocks with
            | error u => simp [hpb] at hok
            | ok uu =>
              simp only [hpb] at hok
              injection hok with h
              subst h
              exact Or.inl rfl
      · rw [if_neg h2] at hok
        by_cases h3 : strOfJson (jsonGetD kvs ("type".data) (Json.str [])) = some ("result".data)
        · rw [if_pos h3] at hok
          injection hok with h
          subst h
          refine Or.inr ?_
          simp only [resultCostOf]
          rw [if_pos h3]
        · rw [if_neg h3] at hok
          injection hok with h
          subst h
          exact Or.inl rfl

/-- Over an estimable log, the parsed cost field stays numeric and
non-positive through the whole `read_log` fold. -/
theorem readLogGo_cost :
    ∀ (lines : List Str), estimableLog lines → ∀ (st : WorkerLogS),
      (∃ c, asNumE st.cost_usd = Except.ok c ∧ c ≤ 0) →
      ∃ c, asNumE (readLogGo lines st).cost_usd = Except.ok c ∧ c ≤ 0 := by
  intro lines
  induction lines with
  | nil => intro _ st hst; exact hst
  | cons line rest ih =>
    intro h st hst
    have htail := estimableLog_tail line rest h
    simp only [readLogGo]
    cases hd : decodedLine line with
    | none => exact ih htail st hst
    | some j =>
      have hj : j ∈ decodedEvents (line :: rest) := by
        unfold decodedEvents
        rw [List.filterMap_cons, hd]
        exact List.mem_cons_self j _
      obtain ⟨hproc, hres⟩ := h j hj
      simp only []
      cases hpe : parseLogEvent j st with
      | error u => exact hst
      | ok st2 =>
        refine ih htail st2 ?_
        rcases parseLogEvent_cost_eq j st st2 hpe with hcc | hcc
        · rw [hcc]; exact hst
        · obtain ⟨c, hc⟩ := resultCost_asNum j st2.cost_usd hproc hcc
          exact ⟨c, hc, hres _ hcc c hc⟩

/-- C7 (amended): over a worker log each of whose decoded events processes
without an exception and whose result events all carry non-positive cost,
`estimate_cost_from_log` returns exactly (maxIn*3 + maxOut*15)/1e6 for the
claim-side token maxima, and the interrupt handler books exactly one
`worker` ledger record tagged estimated=true when that amount is positive,
and none otherwise. -/
theorem c7_amended (lines : List Str) (taskId : Option Str)
    (h : estimableLog lines) :
    estimate_cost_from_log lines =
      (specMaxIn lines * 3 + specMaxOut lines * 15) / 1000000 ∧
    interruptWorkerCostRecords lines taskId =
      Except.ok
        (if 0 < (specMaxIn lines * 3 + specMaxOut lines * 15) / 1000000 then
          [⟨"worker".data, (specMaxIn lines * 3 + specMaxOut lines * 15) / 1000000,
            taskId, "Estimated (interrupted)".data, true⟩]
        else []) := by
  have hin : 0 ≤ specMaxIn lines := foldrMax_nonneg (fun p => p.1) _
  have hout : 0 ≤ specMaxOut lines := foldrMax_nonneg (fun p => p.2) _
  have hs : estimate_cost_from_log lines =
      (if 0 < specMaxIn lines ∨ 0 < specMaxOut lines then
        (specMaxIn lines * 3 + specMaxOut lines * 15) / 1000000
      else 0) := estimateGo_spec lines h 0 0
  have hmain : estimate_cost_from_log lines =
      (specMaxIn lines * 3 + specMaxOut lines * 15) / 1000000 := by
    rw [hs]
    by_cases hpos : 0 < specMaxIn lines ∨ 0 < specMaxOut lines
    · rw [if_pos hpos]
    · rw [if_neg hpos]
      push_neg at hpos
      rw [le_antisymm hpos.1 hin, le_antisymm hpos.2 hout]
      norm_num
  refine ⟨hmain, ?_⟩
  obtain ⟨c, hc, hc0⟩ := readLogGo_cost lines h {} ⟨0, rfl, le_refl 0⟩
  have hrl : asNumE (read_log lines).cost_usd = Except.ok c := hc
  simp only [interruptWorkerCostRecords]
  simp only [hrl]
  rw [if_neg (not_lt.mpr hc0)]
  rw [hmain]
  by_cases hF : 0 < (specMaxIn lines * 3 + specMaxOut lines * 15) / 1000000
  · rw [if_pos hF, if_pos hF]
    simp only [costTrackerAdd]
    rw [if_neg (not_le.mpr hF)]
    rfl
  · rw [if_neg hF, if_neg hF]

/-- C7 witness: a one-event log with 1200 input and 400 output tokens and no
result event is estimated at 0.0096 dollars, and the interrupt handler books
one estimated worker record of that amount. -/
theorem c7_amended_witness :
    estimate_cost_from_log c7LogW = 0.0096 ∧
    interruptWorkerCostRecords c7LogW (some ("1".data)) =
      Except.ok [⟨"worker".data, 0.0096, some ("1".data),
        "Estimated (interrupted)".data, true⟩] := by
  have hlog : estimableLog c7LogW := estimableLog_of_B c7LogW (by decide)
  have h := c7_amended c7LogW (some ("1".data)) hlog
  have hinW : specMaxIn c7LogW = 1200 := by decide
  have houtW : specMaxOut c7LogW = 400 := by decide
  constructor
  · rw [h.1, hinW, houtW]; norm_num
  · rw [h.2, hinW, houtW,
      show ((1200:ℚ) * 3 + (400:ℚ) * 15) / 1000000 = 0.0096 by norm_num,
      if_pos (show (0:ℚ) < 0.0096 by norm_num)]

/-- C7 counterexample: a two-event log with no result event and claim-side
token maxima 1200 and 400 — so the claimed formula yields 0.0096 — is
estimated at 0 because its second assistant event raises inside the
estimator, and no ledger record is booked. -/
theorem c7_counterexample :
    (decodedEvents c7LogC).all (fun j => ( resultCostOf j).isNone) = true ∧
    specMaxIn c7LogC = 1200 ∧ specMaxOut c7LogC = 400 ∧
    ((1200 : ℚ) * 3 + 400 * 15) / 1000000 = 0.0096 ∧
    estimate_cost_from_log c7LogC = 0 ∧
    estimate_cost_from_log c7LogC ≠
      (specMaxIn c7LogC * 3 + specMaxOut c7LogC * 15) / 1000000 ∧
    interruptWorkerCostRecords c7LogC (some ("1".data)) = Except.ok [] := by
  refine ⟨by decide, by decide, by decide, by norm_num, by decide, ?_, rfl⟩
  rw [show estimate_cost_from_log c7LogC = 0 by decide,
      show specMaxIn c7LogC = 1200 by decide,
      show specMaxOut c7LogC = 400 by decide]
  norm_num

end ClaudePlus
